import Mathlib

/-!
Verification of the control/simulation core of the smart-farm-robot demo.

The Python sources are shallowly embedded as Lean definitions:

* floating-point quantities are modelled as exact rationals, except the
  A* path costs of `path_planner.py` (sums of `1` and `math.sqrt(2)`),
  which are modelled exactly in the ring `ℤ√2`, with `float('inf')` as
  the `⊤` of `WithTop`;
* plant dictionaries are records; dictionary keys that can be absent are
  `Option`-valued, a `d.get(key, default)` access is `Option.getD`, and a
  bare `d[key]` access on a possibly-missing key is modelled in `Except`
  (a Python `KeyError` aborts the request handler with no state change);
* plant ids are the strings `plant_<row>_<col>`, in bijection with the
  `(row, col)` pair, which is used as the id here;
* calls to `random.*` are passed in explicitly as draw parameters;
* `game_state['tasks']` is always the empty list (`init_tasks` returns
  `[]`), so the task-progress loops inside the actions, which iterate
  over that list, never run and are not modelled.
-/

namespace Farm

/-- Grid cell size, `cell_size = 0.5` in `server_game.py`. -/
def cellSize : ℚ := 1/2

/-- World-x offset of the grid, `offset_x = -2.0`. -/
def offsetX : ℚ := -2

/-- World-z offset of the grid, `offset_z = -2.0`. -/
def offsetZ : ℚ := -2

/-- Number of rows/columns of the farm grid (`grid_size = 8`). -/
def gridSize : ℕ := 8

/-- One plant dictionary of `game_state['plants']`.  Fields that some
plant dictionaries lack (`health`, `growth_stage`, ...) are `Option`s;
boolean flags that are only ever read through `.get(key, False)` are
plain `Bool`s defaulting to `false`. -/
structure Plant where
  row : ℕ
  col : ℕ
  posX : ℚ
  posZ : ℚ
  is_empty : Bool := false
  is_removed : Bool := false
  is_seed : Bool := false
  is_vegetable : Bool := false
  is_weed : Bool := false
  typ : Option String := none
  health : Option ℤ := none
  growth_stage : Option ℕ := none
  has_pests : Bool := false
  pests_count : ℕ := 0
  soil_moisture : Option ℤ := none
  soil_ph : Option ℚ := none
  nutrient_n : Option ℤ := none
  nutrient_p : Option ℤ := none
  nutrient_k : Option ℤ := none
  last_watered : Option ℚ := none
  plant_time : Option ℚ := none
  invaded_by_weed : Bool := false
  deriving DecidableEq, Repr

/-- The slice of the global `game_state` dictionary that the plant
actions read or write (`energy`, `cart`, ... are untouched by them). -/
structure GameState where
  plants : List Plant
  coins : ℤ
  score : ℤ
  statsHarvested : ℕ := 0
  statsWeedsRemoved : ℕ := 0
  statsSeedsPlanted : ℕ := 0
  statsWaterings : ℕ := 0
  deriving DecidableEq, Repr

/-- `next((p for p in game_state['plants'] if p['id'] == plant_id), None)`:
first plant whose id (i.e. `(row, col)`) matches. -/
def findCell (ps : List Plant) (r c : ℕ) : Option Plant :=
  ps.find? (fun p => p.row = r && p.col = c)

/-- First plant at `(r, c)` that is not removed, as in the weed-spread
lookup `next((p for p in game_state['plants'] if p['row'] == n_row and
p['col'] == n_col and not p.get('is_removed')), None)`. -/
def findCellNR (ps : List Plant) (r c : ℕ) : Option Plant :=
  ps.find? (fun p => p.row = r && p.col = c && !p.is_removed)

/-- Replace the first element satisfying `pred` by its image under `f`
(Python mutates the dictionary returned by `next(...)` in place). -/
def updateFirst (pred : Plant → Bool) (f : Plant → Plant) :
    List Plant → List Plant
  | [] => []
  | p :: ps => if pred p then f p :: ps else p :: updateFirst pred f ps

/-- Update the first plant with id `(r, c)`. -/
def updateCell (r c : ℕ) (f : Plant → Plant) (ps : List Plant) : List Plant :=
  updateFirst (fun p => p.row = r && p.col = c) f ps

/-- Update the first non-removed plant at `(r, c)`. -/
def updateCellNR (r c : ℕ) (f : Plant → Plant) (ps : List Plant) : List Plant :=
  updateFirst (fun p => p.row = r && p.col = c && !p.is_removed) f ps

/-- The `plant.clear()` / re-initialisation sequence run by harvest and
by a successful laser shot: only id, row, col, a recomputed position,
`is_empty = True` and `is_removed = False` remain. -/
def resetToEmpty (r c : ℕ) : Plant :=
  { row := r
    col := c
    posX := offsetX + c * cellSize + cellSize / 2
    posZ := offsetZ + r * cellSize + cellSize / 2
    is_empty := true
    is_removed := false }

/-! ### `action_harvest` (`server_game.py`) -/

/-- Result of `POST /api/action/harvest`. -/
inductive HarvestRes
  /-- `'植物不存在'`: no plant with this id, or it is removed. -/
  | notFound
  /-- `'这里是空地！请先播种'`. -/
  | emptyCell
  /-- `'种子还未发芽！请先浇水'`. -/
  | seedCell
  /-- `'杂草不能收获！请使用激光除草器'`. -/
  | notVegetable
  /-- `'植物还未成熟...需要阶段3才能收获'`. -/
  | notMature
  /-- Successful harvest with its fruit count and coin yield. -/
  | harvested (fruit_count : ℤ) (coins_earned : ℤ)
  deriving DecidableEq, Repr

/-- Whether the response has `'success': True`. -/
def HarvestRes.isSuccess : HarvestRes → Bool
  | .harvested _ _ => true
  | _ => false

/-- Fruit count from the health tier in `action_harvest`. -/
def fruitCountOf (health : ℤ) : ℤ :=
  if health ≥ 90 then 5
  else if health ≥ 75 then 4
  else if health ≥ 60 then 3
  else if health ≥ 40 then 2
  else 1

/-- `action_harvest` of `server_game.py`. -/
def actionHarvest (st : GameState) (r c : ℕ) : HarvestRes × GameState :=
  match findCell st.plants r c with
  | none => (.notFound, st)
  | some plant =>
    if plant.is_removed then (.notFound, st)
    else if plant.is_empty then (.emptyCell, st)
    else if plant.is_seed then (.seedCell, st)
    else if !plant.is_vegetable then (.notVegetable, st)
    else
      let growth_stage := plant.growth_stage.getD 1
      if growth_stage < 3 then (.notMature, st)
      else
        let health := plant.health.getD 100
        let fruit_count := fruitCountOf health
        let base_yield : ℤ := 10
        let fruit_yield := fruit_count * 15
        let growth_bonus : ℤ := growth_stage * 5
        let total0 := base_yield + fruit_yield + growth_bonus
        let total_coins :=
          if growth_stage = 3 ∧ health ≥ 90 then total0 + 20 else total0
        let st' : GameState :=
          { st with
            coins := st.coins + total_coins
            score := st.score + total_coins
            statsHarvested := st.statsHarvested + 1
            plants := updateCell r c (fun _ => resetToEmpty r c) st.plants }
        (.harvested fruit_count total_coins, st')

/-! ### `action_laser` (`server_game.py`) -/

/-- Result of `POST /api/action/laser`.  Note the Python handler replies
`'success': True` both for a cleared weed and for a hit vegetable. -/
inductive LaserRes
  /-- `'Plant not found'`. -/
  | notFound
  /-- `'Plant already removed'`. -/
  | alreadyRemoved
  /-- Weed cleared, `+50` score and `+10` coins. -/
  | weedCleared
  /-- A non-weed was hit: `-30` health, `-100` score. -/
  | vegHit
  deriving DecidableEq, Repr

/-- `action_laser` of `server_game.py`.  The handler returns the global
state alongside the response; a laser shot at a cell whose plant
dictionary has no `'health'` key (an empty cell) raises a `KeyError` at
`plant['health'] - 30`, modelled as `Except.error` — the right-hand side
is evaluated before any mutation, so the state is unchanged there. -/
def actionLaser (st : GameState) (r c : ℕ) :
    Except String LaserRes × GameState :=
  match findCell st.plants r c with
  | none => (.ok .notFound, st)
  | some plant =>
    if plant.is_removed then (.ok .alreadyRemoved, st)
    else if plant.is_weed then
      let st' : GameState :=
        { st with
          plants := updateCell r c (fun _ => resetToEmpty r c) st.plants
          score := st.score + 50
          coins := st.coins + 10
          statsWeedsRemoved := st.statsWeedsRemoved + 1 }
      (.ok .weedCleared, st')
    else
      match plant.health with
      | none => (.error "KeyError: health", st)
      | some h =>
        let st' : GameState :=
          { st with
            plants :=
              updateCell r c (fun p => { p with health := some (max 0 (h - 30)) })
                st.plants
            score := st.score - 100 }
        (.ok .vegHit, st')

/-! ### `action_water` (`server_game.py`) -/

/-- The `random.*` draws consumed by one call of `action_water`, passed
in explicitly.  `typeChoice` and the entries of `spreadChoices` model
`random.choice` over a 3-element list (used modulo 3); `pestCount`
models `random.randint(1, 2)` (used as `1 + pestCount % 2`). -/
structure WaterRng where
  germDraw : ℚ
  typeChoice : ℕ
  pestDraw : ℚ
  pestCount : ℕ
  spreadChoices : List ℕ
  deriving DecidableEq, Repr

/-- `vegetable_types = ['tomato', 'lettuce', 'carrot']`. -/
def vegTypes : List String := ["tomato", "lettuce", "carrot"]

/-- Germination branch `weed_types = ['dandelion', 'crabgrass', 'thistle']`. -/
def germWeedTypes : List String := ["dandelion", "crabgrass", "thistle"]

/-- Spread branch `weed_types = ['dandelion', 'thistle', 'crabgrass']`. -/
def spreadWeedTypes : List String := ["dandelion", "thistle", "crabgrass"]

/-- The four orthogonal neighbours, in the order the source lists them
(up, down, left, right).  Coordinates are integers: the bound check of
the source (`n_row < 0 or n_row >= 8 or ...`) happens before use. -/
def orthNeighbors (r c : ℕ) : List (ℤ × ℤ) :=
  [((r : ℤ) - 1, (c : ℤ)), ((r : ℤ) + 1, (c : ℤ)),
   ((r : ℤ), (c : ℤ) - 1), ((r : ℤ), (c : ℤ) + 1)]

/-- Result of `POST /api/action/water`. -/
inductive WaterRes
  /-- `'植物不存在'`: no plant with this id, or it is removed. -/
  | notFound
  /-- `'空地无法浇水！请先播种'`. -/
  | emptyCell
  /-- Seed germinated into a vegetable (`isVeg`) with initial health. -/
  | germinated (isVeg : Bool) (health : ℤ)
  /-- `already_mature` failure (weed or vegetable flavour). -/
  | alreadyMature (isWeed : Bool)
  /-- Successful watering with the response fields the claims mention. -/
  | watered (isWeed : Bool) (stageChanged : Bool) (newStage : ℕ)
      (health : ℤ) (spread : List (ℕ × ℕ))
  deriving DecidableEq, Repr

/-- The seed-germination mutation of `action_water` (lines 864-873):
the seed becomes a vegetable when `random.random() < 0.8`, otherwise a
weed, at `growth_stage = 1`, with pests on a 15% draw. -/
def germinateUpdate (rng : WaterRng) (p : Plant) : Plant :=
  let is_vegetable := decide (rng.germDraw < 4/5)
  let has_pests := decide (rng.pestDraw < 3/20)
  let pests_count := if has_pests then 1 + rng.pestCount % 2 else 0
  let initial_health : ℤ :=
    if has_pests then max 40 (100 - (pests_count : ℤ) * 20) else 100
  let newType :=
    (if is_vegetable then vegTypes else germWeedTypes).getD (rng.typeChoice % 3) ""
  { p with
    is_seed := false
    typ := some newType
    is_vegetable := is_vegetable
    is_weed := !is_vegetable
    health := some initial_health
    growth_stage := some 1
    has_pests := has_pests
    pests_count := pests_count
    soil_moisture := some 60 }

/-- Initial health assigned by the germination roll. -/
def germinateHealth (rng : WaterRng) : ℤ :=
  let has_pests := decide (rng.pestDraw < 3/20)
  let pests_count := if has_pests then 1 + rng.pestCount % 2 else 0
  if has_pests then max 40 (100 - (pests_count : ℤ) * 20) else 100

/-- The vegetable-to-weed flip applied to an invaded neighbour in the
contagion loop of `action_water` (lines 969-975). -/
def invadeUpdate (newType : String) (p : Plant) : Plant :=
  { p with
    is_vegetable := false
    is_weed := true
    typ := some newType
    growth_stage := some 1
    health := some 100
    invaded_by_weed := true }

/-- One neighbour of the mature-weed contagion loop of `action_water`:
an in-bounds, non-removed vegetable is flipped into a stage-1,
health-100 weed and its `(row, col)` appended to `spread_info`. -/
def spreadStep (choices : List ℕ) (acc : List Plant × List (ℕ × ℕ))
    (nbr : ℤ × ℤ) : List Plant × List (ℕ × ℕ) :=
  if nbr.1 < 0 ∨ nbr.1 ≥ 8 ∨ nbr.2 < 0 ∨ nbr.2 ≥ 8 then acc
  else
    let nr := nbr.1.toNat
    let nc := nbr.2.toNat
    match findCellNR acc.1 nr nc with
    | none => acc
    | some np =>
      if np.is_vegetable then
        let newType := spreadWeedTypes.getD (choices.getD acc.2.length 0 % 3) ""
        (updateCellNR nr nc (invadeUpdate newType) acc.1,
         acc.2 ++ [(nr, nc)])
      else acc

/-- Whole contagion loop: fold `spreadStep` over the four neighbours. -/
def weedSpread (ps : List Plant) (r c : ℕ) (choices : List ℕ) :
    List Plant × List (ℕ × ℕ) :=
  (orthNeighbors r c).foldl (spreadStep choices) (ps, [])

/-- `action_water` of `server_game.py`.  The response and the (possibly
mutated) global state are returned together: a `KeyError` on a raw
`plant['health']` access aborts the handler but keeps every mutation
performed before it. -/
def actionWater (st : GameState) (r c : ℕ) (rng : WaterRng) (now : ℚ) :
    Except String WaterRes × GameState :=
  match findCell st.plants r c with
  | none => (.ok .notFound, st)
  | some plant =>
    if plant.is_removed then (.ok .notFound, st)
    else if plant.is_empty then (.ok .emptyCell, st)
    else if plant.is_seed then
      let st' : GameState :=
        { st with plants := updateCell r c (germinateUpdate rng) st.plants }
      (.ok (.germinated (decide (rng.germDraw < 4/5)) (germinateHealth rng)), st')
    else
      let is_weed := plant.is_weed
      if plant.growth_stage.getD 1 ≥ 3 then (.ok (.alreadyMature is_weed), st)
      else
        let old_moisture := plant.soil_moisture.getD 50
        let p1 := { plant with soil_moisture := some (min 100 (old_moisture + 30)) }
        let old_stage := p1.growth_stage.getD 1
        let stage_changed := decide (old_stage < 3)
        let p2 :=
          if old_stage < 3 then { p1 with growth_stage := some (old_stage + 1) }
          else p1
        if is_weed then
          let p3 := { p2 with last_watered := some now }
          let plants1 := updateCell r c (fun _ => p3) st.plants
          let sp :=
            if p3.growth_stage.getD 1 = 3 then weedSpread plants1 r c rng.spreadChoices
            else (plants1, [])
          let score_reward : ℤ := if stage_changed then -5 else -2
          let st' : GameState :=
            { st with
              plants := sp.1
              score := st.score - 20 * sp.2.length + score_reward }
          match p3.health with
          | none => (.error "KeyError: health", st')
          | some h =>
            (.ok (.watered true stage_changed (p3.growth_stage.getD 1) h sp.2), st')
        else
          match p2.health with
          | none =>
            (.error "KeyError: health",
             { st with plants := updateCell r c (fun _ => p2) st.plants })
          | some h0 =>
            let pest_damage : ℤ :=
              if p2.pests_count > 0 then (p2.pests_count : ℤ) * 5 else 0
            let h1 := if p2.pests_count > 0 then max 10 (h0 - pest_damage) else h0
            let health_recovery := min 15 (100 - h1)
            let h2 := min 100 (h1 + health_recovery)
            let p3 := { p2 with health := some h2, last_watered := some now }
            let plants1 := updateCell r c (fun _ => p3) st.plants
            let score_reward : ℤ := if stage_changed then 10 else 5
            let st' : GameState :=
              { st with
                plants := plants1
                score := st.score + score_reward
                statsWaterings := st.statsWaterings + 1 }
            (.ok (.watered false stage_changed (p3.growth_stage.getD 1) h2 []), st')

/-! ### Concrete states used by witnesses and counterexamples -/

/-- Concrete mature crop used to instantiate the harvest theorems
(the spec scenario: `growth_stage = 3`, `health = 95`). -/
def c1Plant : Plant :=
  { row := 2, col := 3, posX := 0, posZ := 0, is_vegetable := true,
    typ := some "tomato", health := some 95, growth_stage := some 3 }

/-- A state whose only plant is `c1Plant`. -/
def c1State : GameState := { plants := [c1Plant], coins := 320, score := 0 }

/-- Concrete mature vegetable with health 10 (below the health bound the
spec requires for harvesting). -/
def lowHealthPlant : Plant :=
  { row := 0, col := 0, posX := 0, posZ := 0, is_vegetable := true,
    typ := some "carrot", health := some 10, growth_stage := some 3 }

/-- A state whose only plant is `lowHealthPlant`. -/
def lowHealthState : GameState :=
  { plants := [lowHealthPlant], coins := 0, score := 0 }

/-- Concrete mature weed at stage 3. -/
def matureWeed : Plant :=
  { row := 1, col := 1, posX := 0, posZ := 0, is_weed := true,
    typ := some "thistle", health := some 100, growth_stage := some 3 }

/-- A state whose only plant is `matureWeed`. -/
def matureWeedState : GameState :=
  { plants := [matureWeed], coins := 7, score := 3 }

/-- Concrete seed cell at `(2, 3)` (the spec scenario plants at
`(2, 3)` on the fresh 320-coin grid and waters it). -/
def seedPlant : Plant :=
  { row := 2, col := 3, posX := 0, posZ := 0, is_seed := true,
    typ := some "seed", health := some 100, growth_stage := some 0,
    soil_moisture := some 30 }

/-- A state whose only plant is `seedPlant`. -/
def seedState : GameState := { plants := [seedPlant], coins := 315, score := 10 }

/-- Concrete empty cell as created by `init_plants` (no `'health'`
key). -/
def emptyCellPlant : Plant :=
  { row := 0, col := 0, posX := 0, posZ := 0, is_empty := true }

/-- A state whose only plant is the empty cell `emptyCellPlant`. -/
def emptyCellState : GameState :=
  { plants := [emptyCellPlant], coins := 5, score := 5 }

/-- Concrete weed used for the laser witness. -/
def laserWeed : Plant :=
  { row := 4, col := 6, posX := 0, posZ := 0, is_weed := true,
    typ := some "dandelion", health := some 100, growth_stage := some 2 }

/-- Concrete vegetable used for the laser-miss witness. -/
def laserVeg : Plant :=
  { row := 4, col := 7, posX := 0, posZ := 0, is_vegetable := true,
    typ := some "lettuce", health := some 50, growth_stage := some 2 }

/-- A state holding `laserWeed` and `laserVeg`. -/
def laserState : GameState :=
  { plants := [laserWeed, laserVeg], coins := 30, score := 40 }

/-- Concrete weed at `(3, 3)`, `growth_stage = 2` (the spec scenario). -/
def c5Weed : Plant :=
  { row := 3, col := 3, posX := 0, posZ := 0, is_weed := true,
    typ := some "crabgrass", health := some 100, growth_stage := some 2,
    soil_moisture := some 50 }

/-- Concrete mature crop at `(2, 3)`, orthogonal neighbour of the weed. -/
def c5Crop : Plant :=
  { row := 2, col := 3, posX := 0, posZ := 0, is_vegetable := true,
    typ := some "tomato", health := some 80, growth_stage := some 3,
    soil_moisture := some 50 }

/-- A state holding the weed and its crop neighbour. -/
def c5State : GameState := { plants := [c5Weed, c5Crop], coins := 10, score := 0 }

/-! ### `grid_to_world` / `world_to_grid` (`path_planner.py`) -/

/-- Python `int(...)`: truncation toward zero. -/
def pyInt (q : ℚ) : ℤ := if 0 ≤ q then ⌊q⌋ else -⌊-q⌋

/-- `grid_to_world` of `PathPlanner`: centre of cell `(row, col)` with
cell size `cs` (`self.cell_size`, 0.5 by default) and the fixed offsets
`offset_x = offset_z = -2.0`. -/
def grid_to_world (cs : ℚ) (row col : ℕ) : ℚ × ℚ :=
  (offsetX + col * cs + cs / 2, offsetZ + row * cs + cs / 2)

/-- `world_to_grid` of `PathPlanner`: `col = int((x - offset_x) / cs)`,
`row = int((z - offset_z) / cs)`, returned as `(row, col)`. -/
def world_to_grid (cs : ℚ) (x z : ℚ) : ℤ × ℤ :=
  (pyInt ((z - offsetZ) / cs), pyInt ((x - offsetX) / cs))

/-! ### `ResourceManager` (`resource_manager.py`) -/

/-- One tool record: `{level, efficiency, durability}`. -/
structure Tool where
  level : ℕ
  efficiency : ℚ
  durability : ℤ
  deriving DecidableEq, Repr

/-- The `ResourceManager` state: energy, coins, seed inventory,
harvested-crop inventory and tools (the resource log is not observable
and is omitted). -/
structure RMState where
  energy : ℚ
  max_energy : ℚ
  coins : ℤ
  seeds : List (String × ℤ)
  harvested_crops : List (String × ℤ)
  tools : List (String × Tool)
  deriving DecidableEq, Repr

/-- Python dict read `d.get(k)` over an association list. -/
def alGet {α : Type} (l : List (String × α)) (k : String) : Option α :=
  (l.find? (fun e => e.1 = k)).map (fun e => e.2)

/-- Python dict write `d[k] = v` over an association list. -/
def alSet {α : Type} (k : String) (v : α) : List (String × α) → List (String × α)
  | [] => [(k, v)]
  | e :: es => if e.1 = k then (k, v) :: es else e :: alSet k v es

/-- `consume_energy`: full deduction when affordable, else no change. -/
def consume_energy (amount : ℚ) (s : RMState) : Bool × RMState :=
  if amount ≤ s.energy then (true, { s with energy := s.energy - amount })
  else (false, s)

/-- `add_energy`: clamp at `max_energy`; returns the amount actually
added. -/
def add_energy (amount : ℚ) (s : RMState) : ℚ × RMState :=
  let newEnergy := min s.max_energy (s.energy + amount)
  (newEnergy - s.energy, { s with energy := newEnergy })

/-- `_regenerate_energy` with `energy_regen_rate = 0.02`. -/
def regenerate_energy (delta_time : ℚ) (s : RMState) : RMState :=
  { s with energy := min s.max_energy (s.energy + (1/50) * delta_time) }

/-- `add_coins`: only positive amounts are credited. -/
def add_coins (amount : ℤ) (s : RMState) : RMState :=
  if 0 < amount then { s with coins := s.coins + amount } else s

/-- `spend_coins`: full deduction when affordable, else no change. -/
def spend_coins (amount : ℤ) (s : RMState) : Bool × RMState :=
  if amount ≤ s.coins then (true, { s with coins := s.coins - amount })
  else (false, s)

/-- `use_seed`: decrement when the type exists with enough stock. -/
def use_seed (plant_type : String) (amount : ℤ) (s : RMState) :
    Bool × RMState :=
  match alGet s.seeds plant_type with
  | some n =>
    if amount ≤ n then
      (true, { s with seeds := alSet plant_type (n - amount) s.seeds })
    else (false, s)
  | none => (false, s)

/-- `crop_prices` of `sell_harvested_crop`. -/
def crop_prices : List (String × ℤ) :=
  [("wheat", 1), ("corn", 2), ("carrot", 1), ("tomato", 3)]

/-- `sell_harvested_crop`: clamp the amount at the stock (also when
`None`), decrement stock, credit `amount * price`; returns the coins
earned. -/
def sell_harvested_crop (plant_type : String) (amount : Option ℤ)
    (s : RMState) : ℤ × RMState :=
  match alGet s.harvested_crops plant_type with
  | none => (0, s)
  | some stock =>
    if stock ≤ 0 then (0, s)
    else
      let amt :=
        match amount with
        | none => stock
        | some a => if stock < a then stock else a
      let price := (alGet crop_prices plant_type).getD 1
      let coins_earned := amt * price
      let s1 :=
        { s with harvested_crops := alSet plant_type (stock - amt) s.harvested_crops }
      (coins_earned, add_coins coins_earned s1)

/-- `upgrade_tool`: pay `50 * level²`; on success bump the level,
multiply efficiency by 1.1 and reset durability to 100. -/
def upgrade_tool (tool_name : String) (s : RMState) : Bool × RMState :=
  match alGet s.tools tool_name with
  | none => (false, s)
  | some tool =>
    let upgrade_cost : ℤ := 50 * (tool.level : ℤ) ^ 2
    match spend_coins upgrade_cost s with
    | (false, _) => (false, s)
    | (true, s1) =>
      (true,
       { s1 with
         tools := alSet tool_name
           { level := tool.level + 1
             efficiency := tool.efficiency * (11/10)
             durability := 100 } s1.tools })

/-- `repair_tool`: nothing to do at full durability; else pay
`10 * level` and restore durability to 100. -/
def repair_tool (tool_name : String) (s : RMState) : Bool × RMState :=
  match alGet s.tools tool_name with
  | none => (false, s)
  | some tool =>
    if 100 ≤ tool.durability then (false, s)
    else
      let repair_cost : ℤ := 10 * (tool.level : ℤ)
      match spend_coins repair_cost s with
      | (false, _) => (false, s)
      | (true, s1) =>
        (true,
         { s1 with tools := alSet tool_name { tool with durability := 100 } s1.tools })

/-- Concrete ledger state: the constructor defaults of
`ResourceManager` with 100 coins. -/
def rm0 : RMState :=
  { energy := 100
    max_energy := 100
    coins := 100
    seeds := [("wheat", 10), ("corn", 5), ("carrot", 5), ("tomato", 3)]
    harvested_crops := [("wheat", 0), ("corn", 0), ("carrot", 0), ("tomato", 0)]
    tools :=
      [("watering_can", ⟨1, 1, 100⟩), ("weeder", ⟨1, 1, 100⟩),
       ("scanner", ⟨1, 1, 100⟩), ("harvester", ⟨1, 1, 100⟩)] }

/-! ### `_execute_harvest_batch` (`auto_farm_controller.py`) -/

/-- One harvest-queue entry (the `plant_info` dictionaries built by
`_scan_harvestable_plants`). -/
structure HPlant where
  row : ℕ
  col : ℕ
  typ : String
  health : ℤ
  posX : ℚ
  posZ : ℚ
  deriving DecidableEq, Repr

/-- Squared Euclidean distance from the cart to a queue entry.  The
source compares `sqrt` distances; `sqrt` is strictly monotone on
nonnegative reals, so comparing the squares is equivalent. -/
def dist2 (cx cz : ℚ) (p : HPlant) : ℚ :=
  (p.posX - cx) ^ 2 + (p.posZ - cz) ^ 2

/-- The greedy selection loop of `_execute_harvest_batch`:
`min_distance` starts at infinity, each entry strictly closer than the
current best becomes the new best (so the first minimum wins).  The
accumulator `none` plays the role of `min_distance = inf`. -/
def selectNearestAux (cx cz : ℚ) :
    List HPlant → ℕ → Option (ℕ × ℚ) → Option (ℕ × ℚ)
  | [], _, best => best
  | p :: ps, idx, best =>
    let d := dist2 cx cz p
    let best' :=
      match best with
      | none => some (idx, d)
      | some (bi, bd) => if d < bd then some (idx, d) else some (bi, bd)
    selectNearestAux cx cz ps (idx + 1) best'

/-- Index of the nearest entry of the harvest queue. -/
def selectNearest (cx cz : ℚ) (q : List HPlant) : Option ℕ :=
  (selectNearestAux cx cz q 0 none).map (fun e => e.1)

/-- One call of `_execute_harvest_batch` on the queue: select the
nearest entry, attempt its harvest (`success`), and pop that entry
from the queue in both the success and the failure branch; the third
component is the `plants_harvested` stats increment. -/
def harvestStep (cx cz : ℚ) (success : Bool) (q : List HPlant) :
    Option (HPlant × List HPlant × ℕ) :=
  match selectNearest cx cz q with
  | none => none
  | some i =>
    match q[i]? with
    | none => none
    | some p =>
      if success then some (p, q.eraseIdx i, 1)
      else some (p, q.eraseIdx i, 0)

/-- Draining loop: call `harvestStep` until the queue is empty, with
the cart position and the success of attempt `k` supplied by oracles.
The fuel is the initial queue length; each step removes exactly one
entry, so it never runs out.  Returns the sequence of attempted
entries and the final queue. -/
def drainAux (pos : ℕ → ℚ × ℚ) (succ : ℕ → Bool) :
    ℕ → ℕ → List HPlant → List HPlant × List HPlant
  | 0, _, q => ([], q)
  | fuel + 1, k, q =>
    match harvestStep (pos k).1 (pos k).2 (succ k) q with
    | none => ([], q)
    | some (p, q', _) =>
      let rest := drainAux pos succ fuel (k + 1) q'
      (p :: rest.1, rest.2)

/-- Drain a whole batch: at most `q.length` iterations. -/
def drainQueue (pos : ℕ → ℚ × ℚ) (succ : ℕ → Bool) (q : List HPlant) :
    List HPlant × List HPlant :=
  drainAux pos succ q.length 0 q

/-- The spec-scenario queue: three targets at distances 5, 1 and 3
from the robot at the origin. -/
def c9Queue : List HPlant :=
  [⟨0, 0, "tomato", 100, 5, 0⟩, ⟨0, 1, "carrot", 100, 1, 0⟩,
   ⟨0, 2, "lettuce", 100, 3, 0⟩]

/-! ### `calculate_path` (`path_planner.py`)

The A* search of `path_planner.py`.  Float arithmetic (`1`, `math.sqrt(2)`
and their sums) is modelled exactly in the ring `ℤ√2`; `float('inf')` is
the `⊤` of `WithTop`.  `loop` is defined by well-founded recursion, so the
lemmas its termination argument uses stand just before it. -/

/-- `2` is not a perfect square, so `ℤ√2` below is an ordered ring whose
order agrees with the real numbers `a + b·√2`. -/
instance : Zsqrtd.Nonsquare 2 :=
  ⟨by
    intro n h
    rcases n with _ | _ | n
    · simp at h
    · simp at h
    · have h3 : (2 : ℕ) = n * n + 4 * n + 4 := h.trans (by ring)
      omega⟩

/-- Exact value of the float path costs of `calculate_path`: sums of `1`
(straight move) and `math.sqrt(2)` (diagonal move) live in `ℤ√2`. -/
abbrev Cost : Type := ℤ√(2 : ℕ)

theorem cost_decompose (z : Cost) :
    z = (z.re : Cost) + Zsqrtd.sqrtd * (z.im : Cost) := by
  conv_lhs => rw [show z = (⟨z.re, z.im⟩ : Cost) from rfl]
  exact Zsqrtd.decompose

theorem nonneg_of_components (z : Cost) (h1 : 0 ≤ z.re) (h2 : 0 ≤ z.im) :
    0 ≤ z := by
  rw [cost_decompose z]
  have c1 : (0 : Cost) ≤ (z.re : Cost) := by exact_mod_cast h1
  have c2 : (0 : Cost) ≤ Zsqrtd.sqrtd * (z.im : Cost) :=
    mul_nonneg (by decide) (by exact_mod_cast h2)
  linarith

theorem le_int_bound (z : Cost) (h2 : 0 ≤ z.im) :
    z ≤ ((z.re + 2 * z.im : ℤ) : Cost) := by
  obtain ⟨a, b⟩ := z
  simp only [Zsqrtd.decompose]
  push_cast
  have hb : (0 : ℤ) ≤ b := h2
  have : Zsqrtd.sqrtd * (b : Cost) ≤ 2 * (b : Cost) :=
    mul_le_mul_of_nonneg_right (by decide) (by exact_mod_cast hb)
  linarith

theorem lt_bound_components (a b : ℕ) (w : Cost) (hw : 0 ≤ w.im)
    (h : ((⟨(a : ℤ), (b : ℤ)⟩ : Cost)) < w) :
    (a : ℤ) ≤ w.re + 2 * w.im ∧ (b : ℤ) ≤ w.re + 2 * w.im := by
  have hfull := le_int_bound w hw
  have hup : ((⟨(a : ℤ), (b : ℤ)⟩ : Cost)) < ((w.re + 2 * w.im : ℤ) : Cost) :=
    lt_of_lt_of_le h hfull
  have hdec : ((⟨(a : ℤ), (b : ℤ)⟩ : Cost)) =
      ((a : ℤ) : Cost) + Zsqrtd.sqrtd * ((b : ℤ) : Cost) := Zsqrtd.decompose
  constructor
  · have ha : ((a : ℤ) : Cost) ≤ ((⟨(a : ℤ), (b : ℤ)⟩ : Cost)) := by
      rw [hdec]
      have : (0 : Cost) ≤ Zsqrtd.sqrtd * ((b : ℤ) : Cost) :=
        mul_nonneg (by decide) (by exact_mod_cast Int.ofNat_nonneg b)
      linarith
    have := lt_of_le_of_lt ha hup
    exact_mod_cast le_of_lt this
  · have hb : ((b : ℤ) : Cost) ≤ ((⟨(a : ℤ), (b : ℤ)⟩ : Cost)) := by
      rw [hdec]
      have h1 : ((b : ℤ) : Cost) ≤ Zsqrtd.sqrtd * ((b : ℤ) : Cost) := by
        have := mul_le_mul_of_nonneg_right (show (1 : Cost) ≤ Zsqrtd.sqrtd by decide)
          (show (0 : Cost) ≤ ((b : ℤ) : Cost) by exact_mod_cast Int.ofNat_nonneg b)
        simpa using this
      have h2 : (0 : Cost) ≤ ((a : ℤ) : Cost) := by exact_mod_cast Int.ofNat_nonneg a
      linarith
    have := lt_of_le_of_lt hb hup
    exact_mod_cast le_of_lt this

/-- Number of grid-cost values `a + b·√2` (`a b : ℕ`) strictly below `z`.
A strictly decreasing sequence of nonnegative costs has strictly
decreasing `rank`, which drives the termination of the A* loop. -/
def rank (z : Cost) : ℕ :=
  ((Finset.range ((z.re + 2 * z.im).toNat + 1) ×ˢ
      Finset.range ((z.re + 2 * z.im).toNat + 1)).filter
    (fun p => ((⟨(p.1 : ℤ), (p.2 : ℤ)⟩ : Cost)) < z)).card

theorem rank_eq_of_bound (z : Cost) (hz2 : 0 ≤ z.im) (m : ℕ)
    (hm : (z.re + 2 * z.im).toNat ≤ m) :
    ((Finset.range (m + 1) ×ˢ Finset.range (m + 1)).filter
      (fun p => ((⟨(p.1 : ℤ), (p.2 : ℤ)⟩ : Cost)) < z)).card = rank z := by
  unfold rank
  congr 1
  apply Finset.ext
  intro p
  simp only [Finset.mem_filter, Finset.mem_product, Finset.mem_range]
  constructor
  · rintro ⟨⟨h1, h2⟩, hp⟩
    obtain ⟨c1, c2⟩ := lt_bound_components p.1 p.2 z hz2 hp
    refine ⟨⟨?_, ?_⟩, hp⟩ <;> omega
  · rintro ⟨⟨h1, h2⟩, hp⟩
    obtain ⟨c1, c2⟩ := lt_bound_components p.1 p.2 z hz2 hp
    refine ⟨⟨?_, ?_⟩, hp⟩ <;> omega

theorem rank_lt_rank (v w : Cost) (hv1 : 0 ≤ v.re) (hv2 : 0 ≤ v.im)
    (hw2 : 0 ≤ w.im) (hvw : v < w) : rank v < rank w := by
  set M := max (v.re + 2 * v.im).toNat (w.re + 2 * w.im).toNat with hM
  have hev := rank_eq_of_bound v hv2 M (le_max_left _ _)
  have hew := rank_eq_of_bound w hw2 M (le_max_right _ _)
  rw [← hev, ← hew]
  apply Finset.card_lt_card
  constructor
  · apply Finset.monotone_filter_right
    intro p hp
    exact lt_trans hp hvw
  · intro hsub
    have hx : (v.re.toNat, v.im.toNat) ∈
        (Finset.range (M + 1) ×ˢ Finset.range (M + 1)).filter
          (fun p => ((⟨(p.1 : ℤ), (p.2 : ℤ)⟩ : Cost)) < w) := by
      have hveq : ((⟨(v.re.toNat : ℤ), (v.im.toNat : ℤ)⟩ : Cost)) = v := by
        rw [show v = (⟨v.re, v.im⟩ : Cost) from rfl]
        rw [Int.toNat_of_nonneg hv1, Int.toNat_of_nonneg hv2]
      simp only [Finset.mem_filter, Finset.mem_product, Finset.mem_range]
      obtain ⟨c1, c2⟩ := lt_bound_components v.re.toNat v.im.toNat w hw2
        (by rw [hveq]; exact hvw)
      refine ⟨⟨?_, ?_⟩, by rw [hveq]; exact hvw⟩ <;> omega
    have hnx := hsub hx
    simp only [Finset.mem_filter] at hnx
    have hveq : ((⟨(v.re.toNat : ℤ), (v.im.toNat : ℤ)⟩ : Cost)) = v := by
      rw [show v = (⟨v.re, v.im⟩ : Cost) from rfl]
      rw [Int.toNat_of_nonneg hv1, Int.toNat_of_nonneg hv2]
    rw [hveq] at hnx
    exact lt_irrefl v hnx.2

/-- A `(row, col)` pair as manipulated by `path_planner.py`. -/
abbrev Cell : Type := ℤ × ℤ

/-- `is_valid_position` of `path_planner.py`: inside the `N × N` grid and
not an obstacle. -/
def isValidPos (N : ℕ) (obs : Finset Cell) (p : Cell) : Bool :=
  decide (0 ≤ p.1 ∧ p.1 < (N : ℤ) ∧ 0 ≤ p.2 ∧ p.2 < (N : ℤ) ∧ p ∉ obs)

/-- The eight move directions of `calculate_path`, in source order. -/
def directions : List Cell :=
  [(-1, 0), (1, 0), (0, -1), (0, 1), (-1, -1), (-1, 1), (1, -1), (1, 1)]

/-- `math.sqrt(2)` for a diagonal step (`abs(dr) + abs(dc) == 2`), `1`
otherwise. -/
def moveCost (d : Cell) : Cost :=
  if |d.1| + |d.2| = 2 then Zsqrtd.sqrtd else 1

/-- The Manhattan-distance heuristic of `calculate_path`. -/
def heuristic (goal p : Cell) : Cost :=
  ((|p.1 - goal.1| + |p.2 - goal.2| : ℤ) : Cost)

theorem moveCost_re (d : Cell) : 0 ≤ (moveCost d).re := by
  unfold moveCost
  split_ifs <;> decide

theorem moveCost_im (d : Cell) : 0 ≤ (moveCost d).im := by
  unfold moveCost
  split_ifs <;> decide

theorem moveCost_pos (d : Cell) : 0 < moveCost d := by
  unfold moveCost
  split_ifs <;> decide

/-- The loop state of `calculate_path`: the open list of `(f_score, cell)`
entries, `g_score` (`⊤` standing for `float('inf')`), and `came_from`
(`parent`).  `hg` records that every finite `g_score` has nonnegative
components, which the relaxation step maintains. -/
structure AState where
  openl : List (Cost × Cell)
  g : Cell → WithTop Cost
  parent : Cell → Option Cell
  hg : ∀ p v, g p = some v → 0 ≤ v.re ∧ 0 ≤ v.im

/-- The cells of the `N × N` grid as a finite set (termination measure
domain). -/
def gridF (N : ℕ) : Finset Cell :=
  Finset.image (fun p => ((p.1 : ℤ), (p.2 : ℤ))) (Finset.range N ×ˢ Finset.range N)

theorem valid_mem_gridF (N : ℕ) (obs : Finset Cell) (p : Cell)
    (h : isValidPos N obs p = true) : p ∈ gridF N := by
  unfold isValidPos at h
  rw [decide_eq_true_eq] at h
  obtain ⟨h1, h2, h3, h4, -⟩ := h
  unfold gridF
  rw [Finset.mem_image]
  refine ⟨(p.1.toNat, p.2.toNat), ?_, ?_⟩
  · rw [Finset.mem_product]
    constructor <;> rw [Finset.mem_range] <;> omega
  · have e1 : ((p.1.toNat : ℤ)) = p.1 := Int.toNat_of_nonneg h1
    have e2 : ((p.2.toNat : ℤ)) = p.2 := Int.toNat_of_nonneg h3
    exact Prod.ext e1 e2

/-- One direction of the neighbour loop of `calculate_path`: skip invalid
cells, and when `tentative_g_score < g_score[neighbor]` update `g_score`,
`came_from` and `f_score` and push `(f_score, neighbor)` unless that exact
entry is already in the open list. -/
def relaxDir (N : ℕ) (obs : Finset Cell) (goal cur : Cell) (gc : Cost)
    (hgc : 0 ≤ gc.re ∧ 0 ≤ gc.im) (s : AState) (d : Cell) : AState :=
  let nb : Cell := (cur.1 + d.1, cur.2 + d.2)
  if isValidPos N obs nb then
    let t := gc + moveCost d
    if (t : WithTop Cost) < s.g nb then
      let f := t + heuristic goal nb
      { openl := if (f, nb) ∈ s.openl then s.openl else (f, nb) :: s.openl
        g := Function.update s.g nb (some t)
        parent := Function.update s.parent nb (some cur)
        hg := by
          intro p v hv
          by_cases hp : p = nb
          · subst hp
            rw [Function.update_same] at hv
            injection hv with hv
            subst hv
            refine ⟨?_, ?_⟩
            · rw [Zsqrtd.add_re]
              have := moveCost_re d
              omega
            · rw [Zsqrtd.add_im]
              have := moveCost_im d
              omega
          · rw [Function.update_noteq hp] at hv
            exact s.hg p v hv }
    else s
  else s

/-- The whole `for dr, dc in directions` neighbour loop. -/
def relaxAll (N : ℕ) (obs : Finset Cell) (goal cur : Cell) (gc : Cost)
    (hgc : 0 ≤ gc.re ∧ 0 ≤ gc.im) (s : AState) : AState :=
  directions.foldl (relaxDir N obs goal cur gc hgc) s

/-- Lexicographic order on `(f_score, row, col)` heap entries, as Python
compares the tuples pushed by `calculate_path`. -/
def entryLtB (a b : Cost × Cell) : Bool :=
  decide (a.1 < b.1) ||
    (decide (a.1 = b.1) &&
      (decide (a.2.1 < b.2.1) ||
        (decide (a.2.1 = b.2.1) && decide (a.2.2 < b.2.2))))

/-- `heapq.heappop`: remove and return a least entry of the open list
(the heap is modelled by its multiset of entries). -/
def popMin (l : List (Cost × Cell)) :
    Option ((Cost × Cell) × List (Cost × Cell)) :=
  match l with
  | [] => none
  | e :: es =>
    let m := es.foldl (fun best x => if entryLtB x best then x else best) e
    some (m, l.erase m)

theorem foldlMin_mem (e : Cost × Cell) (es : List (Cost × Cell)) :
    es.foldl (fun best x => if entryLtB x best then x else best) e = e ∨
    es.foldl (fun best x => if entryLtB x best then x else best) e ∈ es := by
  induction es generalizing e with
  | nil => exact Or.inl rfl
  | cons a as ih =>
    simp only [List.foldl_cons]
    by_cases h : entryLtB a e
    · rw [if_pos h]
      rcases ih a with h2 | h2
      · exact Or.inr (by rw [h2]; simp)
      · exact Or.inr (by simp [h2])
    · rw [if_neg h]
      rcases ih e with h2 | h2
      · exact Or.inl h2
      · exact Or.inr (by simp [h2])

theorem popMin_none (l : List (Cost × Cell)) : popMin l = none ↔ l = [] := by
  cases l <;> simp [popMin]

theorem popMin_some (l : List (Cost × Cell)) (m : Cost × Cell)
    (rest : List (Cost × Cell)) (h : popMin l = some (m, rest)) :
    m ∈ l ∧ rest = l.erase m := by
  cases l with
  | nil => simp [popMin] at h
  | cons e es =>
    simp only [popMin, Option.some_inj, Prod.mk.injEq] at h
    obtain ⟨h1, h2⟩ := h
    constructor
    · rcases foldlMin_mem e es with hm | hm
      · rw [← h1, hm]; simp
      · rw [← h1]; simp [hm]
    · rw [← h1, ← h2]

theorem popMin_some_length (l : List (Cost × Cell)) (m : Cost × Cell)
    (rest : List (Cost × Cell)) (h : popMin l = some (m, rest)) :
    rest.length + 1 = l.length := by
  obtain ⟨hm, hr⟩ := popMin_some l m rest h
  rw [hr]
  have := List.length_erase_of_mem hm
  have hpos : 0 < l.length := List.length_pos_of_mem hm
  omega

/-- The `while current in came_from` reconstruction walk.  The Python loop
has no bound; the fuel `N * N + 1` used by `loop` provably suffices
because parent links strictly decrease `g_score`. -/
def rebuild (parent : Cell → Option Cell) : ℕ → Cell → List Cell
  | 0, _ => []
  | fuel + 1, cur =>
    match parent cur with
    | some pr => cur :: rebuild parent fuel pr
    | none => []

/-- Cells of the grid still at `g_score = inf` (first termination
component). -/
def measureA (N : ℕ) (s : AState) : ℕ :=
  ((gridF N).filter (fun p => s.g p = ⊤)).card

/-- Sum of the ranks of the finite `g_score` values over the grid (second
termination component). -/
def measureB (N : ℕ) (s : AState) : ℕ :=
  Finset.sum (gridF N) (fun p => match s.g p with | ⊤ => 0 | some v => rank v)

theorem relaxDir_g_le (N : ℕ) (obs : Finset Cell) (goal cur : Cell) (gc : Cost)
    (hgc : 0 ≤ gc.re ∧ 0 ≤ gc.im) (s : AState) (d : Cell) (p : Cell) :
    (relaxDir N obs goal cur gc hgc s d).g p ≤ s.g p := by
  by_cases h1 : isValidPos N obs (cur.1 + d.1, cur.2 + d.2) = true
  · by_cases h2 : ((gc + moveCost d : Cost) : WithTop Cost) <
        s.g (cur.1 + d.1, cur.2 + d.2)
    · by_cases hp : p = (cur.1 + d.1, cur.2 + d.2)
      · subst hp
        simp only [relaxDir, if_pos h1, if_pos h2, Function.update_same]
        exact le_of_lt h2
      · simp only [relaxDir, if_pos h1, if_pos h2]
        exact le_of_eq (Function.update_noteq hp _ _)
    · simp only [relaxDir, if_pos h1, if_neg h2]
      exact le_rfl
  · simp only [relaxDir, if_neg h1]
    exact le_rfl

theorem relaxFold_g_le (N : ℕ) (obs : Finset Cell) (goal cur : Cell) (gc : Cost)
    (hgc : 0 ≤ gc.re ∧ 0 ≤ gc.im) (ds : List Cell) (s : AState) (p : Cell) :
    (ds.foldl (relaxDir N obs goal cur gc hgc) s).g p ≤ s.g p := by
  induction ds generalizing s with
  | nil => exact le_refl _
  | cons a as ih =>
    simp only [List.foldl_cons]
    exact le_trans (ih _) (relaxDir_g_le N obs goal cur gc hgc s a p)

theorem relaxDir_open_super (N : ℕ) (obs : Finset Cell) (goal cur : Cell) (gc : Cost)
    (hgc : 0 ≤ gc.re ∧ 0 ≤ gc.im) (s : AState) (d : Cell) (e : Cost × Cell)
    (he : e ∈ s.openl) : e ∈ (relaxDir N obs goal cur gc hgc s d).openl := by
  simp only [relaxDir]
  split_ifs with h1 h2 h3
  · exact he
  · exact List.mem_cons_of_mem _ he
  · exact he
  · exact he

theorem relaxFold_open_super (N : ℕ) (obs : Finset Cell) (goal cur : Cell) (gc : Cost)
    (hgc : 0 ≤ gc.re ∧ 0 ≤ gc.im) (ds : List Cell) (s : AState) (e : Cost × Cell)
    (he : e ∈ s.openl) : e ∈ (ds.foldl (relaxDir N obs goal cur gc hgc) s).openl := by
  induction ds generalizing s with
  | nil => exact he
  | cons a as ih =>
    simp only [List.foldl_cons]
    exact ih _ (relaxDir_open_super N obs goal cur gc hgc s a e he)

/-- How one pass of the neighbour loop can change the state: each cell is
either untouched, or it is a valid neighbour `cur + d` whose `g_score`
strictly dropped to `gc + moveCost d`, whose parent became `cur`, and
which has an open-list entry. -/
def Changes (N : ℕ) (obs : Finset Cell) (cur : Cell) (gc : Cost)
    (s s2 : AState) : Prop :=
  ∀ p : Cell,
    (s2.g p = s.g p ∧ s2.parent p = s.parent p) ∨
    (isValidPos N obs p = true ∧ s2.g p < s.g p ∧ s2.parent p = some cur ∧
      (∃ f, (f, p) ∈ s2.openl) ∧
      ∃ d ∈ directions, p = (cur.1 + d.1, cur.2 + d.2) ∧
        s2.g p = some (gc + moveCost d))

theorem changes_refl (N : ℕ) (obs : Finset Cell) (cur : Cell) (gc : Cost)
    (s : AState) : Changes N obs cur gc s s :=
  fun _ => Or.inl ⟨rfl, rfl⟩

theorem changes_trans (N : ℕ) (obs : Finset Cell) (cur : Cell) (gc : Cost)
    (s s1 s2 : AState) (h1 : Changes N obs cur gc s s1)
    (h2 : Changes N obs cur gc s1 s2)
    (hop : ∀ e ∈ s1.openl, e ∈ s2.openl) : Changes N obs cur gc s s2 := by
  intro p
  rcases h2 p with ⟨hg2, hp2⟩ | ⟨hv2, hl2, hpar2, hope2, hw2⟩
  · rcases h1 p with ⟨hg1, hp1⟩ | ⟨hv1, hl1, hpar1, ⟨f, hf⟩, d, hd, hpd, hgd⟩
    · exact Or.inl ⟨hg2.trans hg1, hp2.trans hp1⟩
    · exact Or.inr ⟨hv1, hg2 ▸ hl1, hp2.trans hpar1, ⟨f, hop _ hf⟩,
        d, hd, hpd, hg2.trans hgd⟩
  · rcases h1 p with ⟨hg1, _⟩ | ⟨hv1, hl1, _, _, _⟩
    · exact Or.inr ⟨hv2, hg1 ▸ hl2, hpar2, hope2, hw2⟩
    · exact Or.inr ⟨hv1, lt_trans hl2 hl1, hpar2, hope2, hw2⟩

theorem relaxDir_changes (N : ℕ) (obs : Finset Cell) (goal cur : Cell) (gc : Cost)
    (hgc : 0 ≤ gc.re ∧ 0 ≤ gc.im) (s : AState) (d : Cell) (hd : d ∈ directions) :
    Changes N obs cur gc s (relaxDir N obs goal cur gc hgc s d) := by
  intro p
  by_cases h1 : isValidPos N obs (cur.1 + d.1, cur.2 + d.2) = true
  · by_cases h2 : ((gc + moveCost d : Cost) : WithTop Cost) <
        s.g (cur.1 + d.1, cur.2 + d.2)
    · by_cases hp : p = (cur.1 + d.1, cur.2 + d.2)
      · subst hp
        refine Or.inr ⟨h1, ?_, ?_, ?_, d, hd, rfl, ?_⟩
        · simp only [relaxDir, if_pos h1, if_pos h2, Function.update_same]
          exact h2
        · simp only [relaxDir, if_pos h1, if_pos h2, Function.update_same]
        · refine ⟨gc + moveCost d + heuristic goal (cur.1 + d.1, cur.2 + d.2), ?_⟩
          by_cases h3 : (gc + moveCost d + heuristic goal (cur.1 + d.1, cur.2 + d.2),
              (cur.1 + d.1, cur.2 + d.2)) ∈ s.openl
          · simp only [relaxDir, if_pos h1, if_pos h2, if_pos h3]
            exact h3
          · simp only [relaxDir, if_pos h1, if_pos h2, if_neg h3]
            exact List.mem_cons_self _ _
        · simp only [relaxDir, if_pos h1, if_pos h2, Function.update_same]
      · refine Or.inl ⟨?_, ?_⟩
        · simp only [relaxDir, if_pos h1, if_pos h2]
          exact Function.update_noteq hp _ _
        · simp only [relaxDir, if_pos h1, if_pos h2]
          exact Function.update_noteq hp _ _
    · simp only [relaxDir, if_pos h1, if_neg h2]
      exact Or.inl ⟨trivial, trivial⟩
  · simp only [relaxDir, if_neg h1]
    exact Or.inl ⟨trivial, trivial⟩

theorem relaxFold_changes (N : ℕ) (obs : Finset Cell) (goal cur : Cell) (gc : Cost)
    (hgc : 0 ≤ gc.re ∧ 0 ≤ gc.im) (ds : List Cell) (hds : ∀ d ∈ ds, d ∈ directions)
    (s : AState) : Changes N obs cur gc s (ds.foldl (relaxDir N obs goal cur gc hgc) s) := by
  induction ds generalizing s with
  | nil => exact changes_refl N obs cur gc s
  | cons a as ih =>
    simp only [List.foldl_cons]
    refine changes_trans N obs cur gc s _ _
      (relaxDir_changes N obs goal cur gc hgc s a (hds a (List.mem_cons_self a as)))
      (ih (fun d hd => hds d (List.mem_cons_of_mem a hd)) _) ?_
    intro e he
    exact relaxFold_open_super N obs goal cur gc hgc as _ e he

theorem relaxAll_changes (N : ℕ) (obs : Finset Cell) (goal cur : Cell) (gc : Cost)
    (hgc : 0 ≤ gc.re ∧ 0 ≤ gc.im) (s : AState) :
    Changes N obs cur gc s (relaxAll N obs goal cur gc hgc s) :=
  relaxFold_changes N obs goal cur gc hgc directions (fun _ hd => hd) s

theorem relaxDir_eq_or_lt (N : ℕ) (obs : Finset Cell) (goal cur : Cell) (gc : Cost)
    (hgc : 0 ≤ gc.re ∧ 0 ≤ gc.im) (s : AState) (d : Cell) :
    relaxDir N obs goal cur gc hgc s d = s ∨
    ∃ p, (relaxDir N obs goal cur gc hgc s d).g p < s.g p := by
  by_cases h1 : isValidPos N obs (cur.1 + d.1, cur.2 + d.2) = true
  · by_cases h2 : ((gc + moveCost d : Cost) : WithTop Cost) <
        s.g (cur.1 + d.1, cur.2 + d.2)
    · refine Or.inr ⟨(cur.1 + d.1, cur.2 + d.2), ?_⟩
      simp only [relaxDir, if_pos h1, if_pos h2, Function.update_same]
      exact h2
    · left
      simp only [relaxDir, if_pos h1, if_neg h2]
  · left
    simp only [relaxDir, if_neg h1]

theorem relaxFold_eq_or_lt (N : ℕ) (obs : Finset Cell) (goal cur : Cell) (gc : Cost)
    (hgc : 0 ≤ gc.re ∧ 0 ≤ gc.im) (ds : List Cell) (s : AState) :
    ds.foldl (relaxDir N obs goal cur gc hgc) s = s ∨
    ∃ p, (ds.foldl (relaxDir N obs goal cur gc hgc) s).g p < s.g p := by
  induction ds generalizing s with
  | nil => exact Or.inl rfl
  | cons a as ih =>
    simp only [List.foldl_cons]
    rcases relaxDir_eq_or_lt N obs goal cur gc hgc s a with he | ⟨p, hp⟩
    · rw [he]
      exact ih s
    · refine Or.inr ⟨p, lt_of_le_of_lt ?_ hp⟩
      exact relaxFold_g_le N obs goal cur gc hgc as _ p

theorem measureA_fold_le (N : ℕ) (obs : Finset Cell) (goal cur : Cell) (gc : Cost)
    (hgc : 0 ≤ gc.re ∧ 0 ≤ gc.im) (s : AState) :
    measureA N (relaxAll N obs goal cur gc hgc s) ≤ measureA N s := by
  apply Finset.card_le_card
  apply Finset.monotone_filter_right
  intro p hp
  have hle : (relaxAll N obs goal cur gc hgc s).g p ≤ s.g p :=
    relaxFold_g_le N obs goal cur gc hgc directions s p
  rw [hp] at hle
  exact top_le_iff.mp hle

theorem relaxAll_measure (N : ℕ) (obs : Finset Cell) (goal cur : Cell) (gc : Cost)
    (hgc : 0 ≤ gc.re ∧ 0 ≤ gc.im) (s : AState) :
    relaxAll N obs goal cur gc hgc s = s ∨
    Prod.Lex (· < · : ℕ → ℕ → Prop) (· < · : ℕ → ℕ → Prop)
      (measureA N (relaxAll N obs goal cur gc hgc s),
        measureB N (relaxAll N obs goal cur gc hgc s))
      (measureA N s, measureB N s) := by
  rcases relaxFold_eq_or_lt N obs goal cur gc hgc directions s with he | ⟨p0, hp0x⟩
  · exact Or.inl he
  have hp0 : (relaxAll N obs goal cur gc hgc s).g p0 < s.g p0 := hp0x
  right
  have hch := relaxAll_changes N obs goal cur gc hgc s
  have hsub : (gridF N).filter (fun p => (relaxAll N obs goal cur gc hgc s).g p = ⊤) ⊆
      (gridF N).filter (fun p => s.g p = ⊤) := by
    intro q hq
    simp only [Finset.mem_filter] at hq ⊢
    refine ⟨hq.1, ?_⟩
    rcases hch q with ⟨hg, _⟩ | ⟨_, _, _, _, d, hd, hpd, hgd⟩
    · rw [← hg]
      exact hq.2
    · rw [hgd] at hq
      exact absurd hq.2 (by simp)
  rcases hch p0 with ⟨hgeq, _⟩ | ⟨hval, hlt, hpar, hopen, d0, hd0, hp0eq, hg0⟩
  · rw [hgeq] at hp0
    exact absurd hp0 (lt_irrefl _)
  have hp0grid : p0 ∈ gridF N := valid_mem_gridF N obs p0 hval
  by_cases htop : s.g p0 = ⊤
  · apply Prod.Lex.left
    apply Finset.card_lt_card
    refine ⟨hsub, fun hsup => ?_⟩
    have hmem : p0 ∈ (gridF N).filter
        (fun p => (relaxAll N obs goal cur gc hgc s).g p = ⊤) :=
      hsup (Finset.mem_filter.mpr ⟨hp0grid, htop⟩)
    have := (Finset.mem_filter.mp hmem).2
    rw [hg0] at this
    exact absurd this (by simp)
  · obtain ⟨w0, hw0⟩ := WithTop.ne_top_iff_exists.mp htop
    have hA : measureA N (relaxAll N obs goal cur gc hgc s) ≤ measureA N s :=
      measureA_fold_le N obs goal cur gc hgc s
    rcases lt_or_eq_of_le hA with h | h
    · exact Prod.Lex.left _ _ h
    · have hseteq : (gridF N).filter
          (fun p => (relaxAll N obs goal cur gc hgc s).g p = ⊤) =
          (gridF N).filter (fun p => s.g p = ⊤) :=
        Finset.eq_of_subset_of_card_le hsub h.ge
      rw [show measureA N (relaxAll N obs goal cur gc hgc s) = measureA N s from h]
      apply Prod.Lex.right
      unfold measureB
      apply Finset.sum_lt_sum
      · intro q hq
        rcases hch q with ⟨hgq, _⟩ | ⟨hvq, hltq, _, _, d, hd, hqd, hgd⟩
        · rw [hgq]
        · cases hsq : s.g q with
          | top =>
            have hqf1 : q ∈ (gridF N).filter (fun p => s.g p = ⊤) :=
              Finset.mem_filter.mpr ⟨hq, hsq⟩
            rw [← hseteq] at hqf1
            have hq2 := (Finset.mem_filter.mp hqf1).2
            rw [hgd] at hq2
            exact absurd hq2 (by simp)
          | coe w =>
            rw [hgd]
            have hvw : gc + moveCost d < w := by
              rw [hgd, hsq] at hltq
              exact WithTop.some_lt_some.mp hltq
            refine le_of_lt (rank_lt_rank _ _ ?_ ?_ ?_ hvw)
            · rw [Zsqrtd.add_re]
              have := moveCost_re d
              omega
            · rw [Zsqrtd.add_im]
              have := moveCost_im d
              omega
            · exact (s.hg q w hsq).2
      · refine ⟨p0, hp0grid, ?_⟩
        rw [hg0, ← hw0]
        have hvw : gc + moveCost d0 < w0 := by
          rw [hg0, ← hw0] at hlt
          exact WithTop.some_lt_some.mp hlt
        refine rank_lt_rank _ _ ?_ ?_ ?_ hvw
        · rw [Zsqrtd.add_re]
          have := moveCost_re d0
          omega
        · rw [Zsqrtd.add_im]
          have := moveCost_im d0
          omega
        · exact (s.hg p0 w0 hw0.symm).2

theorem lex3_of_lex2 {a2 b2 a1 b1 c2 c1 : ℕ}
    (h : Prod.Lex (· < · : ℕ → ℕ → Prop) (· < · : ℕ → ℕ → Prop) (a2, b2) (a1, b1)) :
    Prod.Lex (· < · : ℕ → ℕ → Prop)
      (Prod.Lex (· < · : ℕ → ℕ → Prop) (· < · : ℕ → ℕ → Prop))
      (a2, b2, c2) (a1, b1, c1) := by
  cases h with
  | left b1 b2 h => exact Prod.Lex.left _ _ h
  | right a h => exact Prod.Lex.right _ (Prod.Lex.left _ _ h)

theorem loop_dec (N : ℕ) (obs : Finset Cell) (goal cur : Cell) (gc : Cost)
    (hgc : 0 ≤ gc.re ∧ 0 ≤ gc.im) (s1 : AState) (n : ℕ) (hn : s1.openl.length < n) :
    Prod.Lex (· < · : ℕ → ℕ → Prop)
      (Prod.Lex (· < · : ℕ → ℕ → Prop) (· < · : ℕ → ℕ → Prop))
      (measureA N (relaxAll N obs goal cur gc hgc s1),
        measureB N (relaxAll N obs goal cur gc hgc s1),
        (relaxAll N obs goal cur gc hgc s1).openl.length)
      (measureA N s1, measureB N s1, n) := by
  rcases relaxAll_measure N obs goal cur gc hgc s1 with he | hlex
  · rw [he]
    exact Prod.Lex.right _ (Prod.Lex.right _ hn)
  · exact lex3_of_lex2 hlex

/-- The `while open_set:` loop of `calculate_path`.  Termination is by the
lexicographic measure `(measureA, measureB, length of the open list)`:
a relaxation that changes nothing shortens the open list, and one that
changes some `g_score` decreases `(measureA, measureB)`. -/
def loop (N : ℕ) (obs : Finset Cell) (start goal : Cell) (s : AState) :
    Option (List Cell) :=
  match hpop : popMin s.openl with
  | none => none
  | some (e, rest) =>
    if e.2 = goal then
      some (((rebuild s.parent (N * N + 1) goal) ++ [start]).reverse)
    else
      match hcur : s.g e.2 with
      | ⊤ => loop N obs start goal { s with openl := rest }
      | some gc =>
        loop N obs start goal
          (relaxAll N obs goal e.2 gc (s.hg e.2 gc hcur) { s with openl := rest })
termination_by (measureA N s, measureB N s, s.openl.length)
decreasing_by
  · exact Prod.Lex.right _ (Prod.Lex.right _
      (show rest.length < s.openl.length by
        have := popMin_some_length s.openl e rest hpop
        omega))
  · exact loop_dec N obs goal e.2 gc (s.hg e.2 gc hcur) _ s.openl.length
      (show rest.length < s.openl.length by
        have := popMin_some_length s.openl e rest hpop
        omega)

/-- The loop invariant of `calculate_path`: the start keeps `g_score = 0`
and no parent, open-list entries point at cells with finite `g_score`,
finite cells are valid, parent links are moves that strictly decrease
`g_score`, every finite non-start cell has a parent, a finite goal keeps
an open entry, and every finite cell either has an open entry or has all
its valid neighbours relaxed (`frontier`). -/
structure AInv (N : ℕ) (obs : Finset Cell) (start goal : Cell) (s : AState) : Prop where
  start_valid : isValidPos N obs start = true
  hstart_g : s.g start = some 0
  hpar_start : s.parent start = none
  open_g : ∀ e ∈ s.openl, s.g e.2 ≠ ⊤
  g_valid : ∀ p, s.g p ≠ ⊤ → isValidPos N obs p = true
  par_edge : ∀ p q, s.parent p = some q → ∃ d ∈ directions, p = (q.1 + d.1, q.2 + d.2)
  par_lt : ∀ p q, s.parent p = some q → s.g p ≠ ⊤ ∧ s.g q < s.g p
  par_none : ∀ p, s.g p ≠ ⊤ → p ≠ start → s.parent p ≠ none
  goal_open : s.g goal ≠ ⊤ → ∃ f, (f, goal) ∈ s.openl
  frontier : ∀ p v, s.g p = some v →
    (∃ f, (f, p) ∈ s.openl) ∨
    ∀ d ∈ directions, isValidPos N obs (p.1 + d.1, p.2 + d.2) = true →
      s.g (p.1 + d.1, p.2 + d.2) ≤ some (v + moveCost d)

/-- The state of `calculate_path` before the loop: the open list holds
`(heuristic(start), start)`, `g_score` is `0` at the start and `inf`
elsewhere, `came_from` is empty. -/
def initState (start goal : Cell) : AState :=
  { openl := [(heuristic goal start, start)]
    g := Function.update (fun _ => ⊤) start (some 0)
    parent := fun _ => none
    hg := by
      intro p v hv
      by_cases hp : p = start
      · subst hp
        rw [Function.update_same] at hv
        injection hv with hv
        subst hv
        exact ⟨le_refl 0, le_refl 0⟩
      · rw [Function.update_noteq hp] at hv
        exact absurd hv (by simp) }

/-- `calculate_path` of `path_planner.py`: `None` unless both endpoints
are valid, `[(start)]` when `start == goal`, otherwise the A* loop. -/
def calculatePath (N : ℕ) (obs : Finset Cell) (start goal : Cell) :
    Option (List Cell) :=
  if isValidPos N obs start = true ∧ isValidPos N obs goal = true then
    if start = goal then some [start]
    else loop N obs start goal (initState start goal)
  else none

/-- `q` is one of the eight moves away from `p`. -/
def adjacentStep (p q : Cell) : Prop :=
  ∃ d ∈ directions, q = (p.1 + d.1, p.2 + d.2)

/-- Accumulated move cost along a list of cells. -/
def accCost : List Cell → Cost
  | [] => 0
  | [_] => 0
  | p :: q :: r => moveCost (q.1 - p.1, q.2 - p.2) + accCost (q :: r)

/-- A sequence of valid moves from `start` to `goal`: nonempty, starts at
`start`, ends at `goal`, every cell in bounds and off the obstacle set,
consecutive cells one move apart. -/
def ValidPath (N : ℕ) (obs : Finset Cell) (start goal : Cell) (l : List Cell) : Prop :=
  l.head? = some start ∧ l.getLast? = some goal ∧
  (∀ p ∈ l, isValidPos N obs p = true) ∧ List.Chain' adjacentStep l

/-- Some sequence of valid moves connects `start` and `goal`. -/
def Connected (N : ℕ) (obs : Finset Cell) (start goal : Cell) : Prop :=
  ∃ l, ValidPath N obs start goal l

/-- What the claim asserts of a returned path: a valid start-goal move
sequence whose accumulated cost is non-decreasing along the path. -/
def PathOK (N : ℕ) (obs : Finset Cell) (start goal : Cell) (l : List Cell) : Prop :=
  ValidPath N obs start goal l ∧
  ∀ i : ℕ, accCost (l.take (i + 1)) ≤ accCost (l.take (i + 2))

/-! ### Helper lemmas about `updateFirst` -/

theorem find?_updateFirst_self (pred : Plant → Bool) (f : Plant → Plant)
    (l : List Plant) (hf : ∀ x, pred x = true → pred (f x) = true) :
    List.find? pred (updateFirst pred f l) = (List.find? pred l).map f := by
  induction l with
  | nil => rfl
  | cons p ps ih =>
    by_cases hp : pred p = true
    · simp [updateFirst, hp, List.find?, hf p hp]
    · simp only [Bool.not_eq_true] at hp
      simp [updateFirst, hp, List.find?, ih]

theorem find?_updateFirst_disjoint (pred q : Plant → Bool) (f : Plant → Plant)
    (l : List Plant) (h1 : ∀ x, pred x = true → q x = false)
    (h2 : ∀ x, pred x = true → q (f x) = false) :
    List.find? q (updateFirst pred f l) = List.find? q l := by
  induction l with
  | nil => rfl
  | cons p ps ih =>
    by_cases hp : pred p = true
    · simp [updateFirst, hp, List.find?, h1 p hp, h2 p hp]
    · simp only [Bool.not_eq_true] at hp
      simp [updateFirst, hp, List.find?, ih]

theorem findCell_updateCell_self (r c : ℕ) (f : Plant → Plant)
    (ps : List Plant) (p : Plant) (hfind : findCell ps r c = some p)
    (hf : ∀ x, (f x).row = x.row ∧ (f x).col = x.col) :
    findCell (updateCell r c f ps) r c = some (f p) := by
  unfold findCell updateCell at *
  rw [find?_updateFirst_self, hfind]
  · rfl
  · intro x hx
    simp only [Bool.and_eq_true, decide_eq_true_eq] at hx ⊢
    rcases hf x with ⟨h1, h2⟩
    exact ⟨by rw [h1, hx.1], by rw [h2, hx.2]⟩

theorem findCell_updateCell_reset (r c : ℕ) (ps : List Plant) (p : Plant)
    (hfind : findCell ps r c = some p) :
    findCell (updateCell r c (fun _ => resetToEmpty r c) ps) r c =
      some (resetToEmpty r c) := by
  unfold findCell updateCell at *
  rw [find?_updateFirst_self, hfind]
  · rfl
  · intro x _
    simp [resetToEmpty]

theorem findCell_updateCell_ne (r c r' c' : ℕ) (f : Plant → Plant)
    (ps : List Plant) (hne : (r', c') ≠ (r, c))
    (hf : ∀ x, (f x).row = x.row ∧ (f x).col = x.col) :
    findCell (updateCell r c f ps) r' c' = findCell ps r' c' := by
  unfold findCell updateCell
  apply find?_updateFirst_disjoint
  · intro x hx
    simp only [Bool.and_eq_true, decide_eq_true_eq] at hx
    simp only [Bool.and_eq_false_iff, decide_eq_false_iff_not]
    by_contra hcon
    push_neg at hcon
    exact hne (by rw [← hcon.1, ← hcon.2, hx.1, hx.2])
  · intro x hx
    simp only [Bool.and_eq_true, decide_eq_true_eq] at hx
    rcases hf x with ⟨h1, h2⟩
    simp only [Bool.and_eq_false_iff, decide_eq_false_iff_not]
    by_contra hcon
    push_neg at hcon
    exact hne (by rw [← hcon.1, ← hcon.2, h1, h2, hx.1, hx.2])

/-! ### Claim C1: harvesting a mature crop -/

/-- C1.  A cell holding a non-removed vegetable at `growth_stage = 3`
with health `h` harvests successfully: the fruit count follows the
health tier (`≥90 → 5`, `≥75 → 4`, `≥60 → 3`, `≥40 → 2`, else `1`), the
coins credited are `10 + 15·fruit + 5·3`, plus `20` more when
`h ≥ 90`, and the cell is reset to the empty variant. -/
theorem harvest_mature_crop (st : GameState) (r c : ℕ) (p : Plant) (h : ℤ)
    (hfind : findCell st.plants r c = some p)
    (hrem : p.is_removed = false) (hemp : p.is_empty = false)
    (hseed : p.is_seed = false) (hveg : p.is_vegetable = true)
    (hgs : p.growth_stage = some 3) (hh : p.health = some h) :
    actionHarvest st r c =
      (HarvestRes.harvested
        (if h ≥ 90 then 5 else if h ≥ 75 then 4 else if h ≥ 60 then 3
          else if h ≥ 40 then 2 else 1)
        (10 + 15 * (if h ≥ 90 then 5 else if h ≥ 75 then 4 else if h ≥ 60 then 3
          else if h ≥ 40 then 2 else 1) + 5 * 3 + (if h ≥ 90 then 20 else 0)),
       { st with
         coins := st.coins +
           (10 + 15 * (if h ≥ 90 then 5 else if h ≥ 75 then 4 else if h ≥ 60 then 3
             else if h ≥ 40 then 2 else 1) + 5 * 3 + (if h ≥ 90 then 20 else 0))
         score := st.score +
           (10 + 15 * (if h ≥ 90 then 5 else if h ≥ 75 then 4 else if h ≥ 60 then 3
             else if h ≥ 40 then 2 else 1) + 5 * 3 + (if h ≥ 90 then 20 else 0))
         statsHarvested := st.statsHarvested + 1
         plants := updateCell r c (fun _ => resetToEmpty r c) st.plants }) ∧
    findCell (actionHarvest st r c).2.plants r c = some (resetToEmpty r c) ∧
    (resetToEmpty r c).is_empty = true := by
  have hmain : actionHarvest st r c =
      (HarvestRes.harvested (fruitCountOf h)
        (10 + fruitCountOf h * 15 + 3 * 5 + (if h ≥ 90 then 20 else 0)),
       { st with
         coins := st.coins +
           (10 + fruitCountOf h * 15 + 3 * 5 + (if h ≥ 90 then 20 else 0))
         score := st.score +
           (10 + fruitCountOf h * 15 + 3 * 5 + (if h ≥ 90 then 20 else 0))
         statsHarvested := st.statsHarvested + 1
         plants := updateCell r c (fun _ => resetToEmpty r c) st.plants }) := by
    unfold actionHarvest
    rw [hfind]
    simp only [hrem, hemp, hseed, hveg, hgs, hh, Bool.not_true, Bool.false_eq_true,
      if_false, if_true, Option.getD_some]
    norm_num
    split_ifs <;> simp_all
  have hfc : fruitCountOf h =
      (if h ≥ 90 then 5 else if h ≥ 75 then 4 else if h ≥ 60 then 3
        else if h ≥ 40 then 2 else 1) := rfl
  refine ⟨?_, ?_, rfl⟩
  · rw [hmain, hfc]
    split_ifs <;> norm_num
  · rw [hmain]
    exact findCell_updateCell_reset r c st.plants p hfind

/-- Witness for C1: on the concrete scenario state, the hypotheses hold
and the harvest yields 5 fruits and `10 + 75 + 15 + 20 = 120` coins. -/
theorem harvest_mature_crop_witness :
    findCell c1State.plants 2 3 = some c1Plant ∧
    c1Plant.health = some 95 ∧ c1Plant.growth_stage = some 3 ∧
    (actionHarvest c1State 2 3).1 = HarvestRes.harvested 5 120 ∧
    (actionHarvest c1State 2 3).2.coins = 440 ∧
    findCell (actionHarvest c1State 2 3).2.plants 2 3 = some (resetToEmpty 2 3) := by
  have hmc := harvest_mature_crop c1State 2 3 c1Plant 95 rfl
    rfl rfl rfl rfl rfl rfl
  refine ⟨rfl, rfl, rfl, ?_, ?_, hmc.2.1⟩
  · rw [hmc.1]; decide
  · rw [hmc.1]; decide

/-! ### Claim C2: preconditions of the harvest action -/

/-- C2 counterexample: `action_harvest` never checks health, so a
mature crop with health `10 < 30` harvests successfully and the state
is mutated, contradicting the claim that a successful harvest requires
`health ≥ 30`. -/
theorem harvest_ignores_health_cex :
    findCell lowHealthState.plants 0 0 = some lowHealthPlant ∧
    lowHealthPlant.health = some 10 ∧ ¬((10 : ℤ) ≥ 30) ∧
    (actionHarvest lowHealthState 0 0).1.isSuccess = true ∧
    (actionHarvest lowHealthState 0 0).2.coins = 40 ∧
    lowHealthState.coins = 0 :=
  ⟨rfl, rfl, by decide, rfl, by decide, rfl⟩

/-- C2 (amended).  The harvest action succeeds exactly when the cell
holds a non-removed, non-empty, non-seed vegetable at
`growth_stage ≥ 3` — health is not checked.  A nonexistent or removed
cell fails as not-found, and every failure leaves the whole state
(plants, coins, score) unchanged. -/
theorem harvest_requirements (st : GameState) (r c : ℕ) :
    ((actionHarvest st r c).1.isSuccess = true ↔
      ∃ p, findCell st.plants r c = some p ∧ p.is_removed = false ∧
        p.is_empty = false ∧ p.is_seed = false ∧ p.is_vegetable = true ∧
        3 ≤ p.growth_stage.getD 1) ∧
    ((findCell st.plants r c = none ∨
        ∃ p, findCell st.plants r c = some p ∧ p.is_removed = true) →
      actionHarvest st r c = (.notFound, st)) ∧
    ((actionHarvest st r c).1.isSuccess = false →
      (actionHarvest st r c).2 = st) := by
  cases hf : findCell st.plants r c with
  | none => simp [actionHarvest, hf, HarvestRes.isSuccess]
  | some p =>
    by_cases h1 : p.is_removed = true
    · simp [actionHarvest, hf, h1, HarvestRes.isSuccess]
    · simp only [Bool.not_eq_true] at h1
      by_cases h2 : p.is_empty = true
      · simp [actionHarvest, hf, h1, h2, HarvestRes.isSuccess]
      · simp only [Bool.not_eq_true] at h2
        by_cases h3 : p.is_seed = true
        · simp [actionHarvest, hf, h1, h2, h3, HarvestRes.isSuccess]
        · simp only [Bool.not_eq_true] at h3
          by_cases h4 : p.is_vegetable = true
          · by_cases h5 : p.growth_stage.getD 1 < 3
            · simp [actionHarvest, hf, h1, h2, h3, h4, h5, HarvestRes.isSuccess]
            · simp [actionHarvest, hf, h1, h2, h3, h4, h5, HarvestRes.isSuccess]
              omega
          · simp only [Bool.not_eq_true] at h4
            simp [actionHarvest, hf, h1, h2, h3, h4, HarvestRes.isSuccess]

/-- Witness for C2 (amended): on the concrete state the success
equivalence produces an actual successful harvest. -/
theorem harvest_requirements_witness :
    (actionHarvest lowHealthState 0 0).1.isSuccess = true ∧
    (actionHarvest c1State 5 5).1.isSuccess = false ∧
    (actionHarvest c1State 5 5).2 = c1State := by
  have h1 := (harvest_requirements lowHealthState 0 0).1
  have h2 := (harvest_requirements c1State 5 5).2.2
  exact ⟨h1.mpr ⟨lowHealthPlant, rfl, rfl, rfl, rfl, rfl, by decide⟩, rfl, h2 rfl⟩

/-! ### Claim C10: watering an already mature plant -/

/-- C10.  Watering a non-removed, non-empty, non-seed plant whose
growth stage already reads `≥ 3` fails with the `already_mature`
answer and performs no mutation at all: the returned state is the
input state. -/
theorem water_already_mature (st : GameState) (r c : ℕ) (rng : WaterRng)
    (now : ℚ) (p : Plant) (hfind : findCell st.plants r c = some p)
    (hrem : p.is_removed = false) (hemp : p.is_empty = false)
    (hseed : p.is_seed = false) (hgs : 3 ≤ p.growth_stage.getD 1) :
    actionWater st r c rng now = (.ok (.alreadyMature p.is_weed), st) := by
  unfold actionWater
  rw [hfind]
  simp [hrem, hemp, hseed, hgs]

/-- Witness for C10 on a concrete mature weed. -/
theorem water_already_mature_witness :
    findCell matureWeedState.plants 1 1 = some matureWeed ∧
    3 ≤ matureWeed.growth_stage.getD 1 ∧
    actionWater matureWeedState 1 1 ⟨0, 0, 0, 0, []⟩ 0 =
      (.ok (.alreadyMature true), matureWeedState) :=
  ⟨rfl, by decide,
    water_already_mature matureWeedState 1 1 ⟨0, 0, 0, 0, []⟩ 0 matureWeed
      rfl rfl rfl rfl (by decide)⟩

/-! ### Claim C4: watering a seed runs the germination roll -/

/-- C4.  Watering a Seed cell performs the germination roll instead of
normal watering: when the RNG draw is `< 0.8` the seed becomes a
vegetable, otherwise a weed, and in both cases the resulting plant has
`growth_stage = 1`. -/
theorem water_seed_germinates (st : GameState) (r c : ℕ) (rng : WaterRng)
    (now : ℚ) (p : Plant) (hfind : findCell st.plants r c = some p)
    (hrem : p.is_removed = false) (hemp : p.is_empty = false)
    (hseed : p.is_seed = true) :
    (actionWater st r c rng now).1 =
      .ok (.germinated (decide (rng.germDraw < 4/5)) (germinateHealth rng)) ∧
    findCell (actionWater st r c rng now).2.plants r c =
      some (germinateUpdate rng p) ∧
    (germinateUpdate rng p).is_seed = false ∧
    (germinateUpdate rng p).is_vegetable = decide (rng.germDraw < 4/5) ∧
    (germinateUpdate rng p).is_weed = !decide (rng.germDraw < 4/5) ∧
    (germinateUpdate rng p).growth_stage = some 1 := by
  have heq : actionWater st r c rng now =
      (.ok (.germinated (decide (rng.germDraw < 4/5)) (germinateHealth rng)),
       { st with plants := updateCell r c (germinateUpdate rng) st.plants }) := by
    unfold actionWater
    rw [hfind]
    simp [hrem, hemp, hseed]
  refine ⟨by rw [heq], ?_, rfl, rfl, rfl, rfl⟩
  rw [heq]
  exact findCell_updateCell_self r c (germinateUpdate rng) st.plants p hfind
    (fun x => ⟨rfl, rfl⟩)

/-- Witness for C4: watering the concrete seed with a germination draw
below 0.8 produces a vegetable at stage 1, and with a draw above 0.8 a
weed at stage 1. -/
theorem water_seed_germinates_witness :
    findCell seedState.plants 2 3 = some seedPlant ∧
    seedPlant.is_seed = true ∧
    (actionWater seedState 2 3 ⟨1/2, 0, 1/2, 0, []⟩ 0).1 =
      .ok (.germinated true 100) ∧
    (actionWater seedState 2 3 ⟨9/10, 0, 1/2, 0, []⟩ 0).1 =
      .ok (.germinated false 100) ∧
    (germinateUpdate ⟨1/2, 0, 1/2, 0, []⟩ seedPlant).is_vegetable = true ∧
    (germinateUpdate ⟨1/2, 0, 1/2, 0, []⟩ seedPlant).growth_stage = some 1 ∧
    (germinateUpdate ⟨9/10, 0, 1/2, 0, []⟩ seedPlant).is_weed = true ∧
    (germinateUpdate ⟨9/10, 0, 1/2, 0, []⟩ seedPlant).growth_stage = some 1 := by
  have h1 := water_seed_germinates seedState 2 3 ⟨1/2, 0, 1/2, 0, []⟩ 0 seedPlant
    rfl rfl rfl rfl
  have h2 := water_seed_germinates seedState 2 3 ⟨9/10, 0, 1/2, 0, []⟩ 0 seedPlant
    rfl rfl rfl rfl
  have e1 : decide ((1:ℚ)/2 < 4/5) = true := by norm_num
  have e2 : decide ((9:ℚ)/10 < 4/5) = false := by norm_num
  have g1 : germinateHealth ⟨1/2, 0, 1/2, 0, []⟩ = 100 := by
    unfold germinateHealth
    norm_num
  have g2 : germinateHealth ⟨9/10, 0, 1/2, 0, []⟩ = 100 := by
    unfold germinateHealth
    norm_num
  refine ⟨rfl, rfl, ?_, ?_, ?_, h1.2.2.2.2.2, ?_, h2.2.2.2.2.2⟩
  · rw [h1.1, e1, g1]
  · rw [h2.1, e2, g2]
  · rw [h1.2.2.2.1, e1]
  · rw [h2.2.2.2.2.1, e2]; rfl

/-! ### Claim C3: the laser action -/

/-- C3 counterexample: the claim says a laser shot at any non-weed
plant is a miss that reduces the plant's health.  An empty cell is a
non-weed, non-removed plant dictionary, but it has no `'health'` key:
the handler raises `KeyError` at `plant['health'] - 30` instead of
producing the described miss, and nothing is damaged or scored. -/
theorem laser_on_empty_cell_cex :
    findCell emptyCellState.plants 0 0 = some emptyCellPlant ∧
    emptyCellPlant.is_weed = false ∧ emptyCellPlant.is_removed = false ∧
    emptyCellPlant.health = none ∧
    (actionLaser emptyCellState 0 0).1 = .error "KeyError: health" ∧
    (actionLaser emptyCellState 0 0).2 = emptyCellState :=
  ⟨rfl, rfl, rfl, rfl, rfl, rfl⟩

/-- C3 (amended).  For a non-removed plant: a laser shot at a Weed
resets the cell to Empty and grants `+10` coins and `+50` score; a shot
at a non-weed plant that carries a `'health'` field (a Seed or a Crop)
is a miss that lowers that plant's health by 30, clamped at 0, grants
no coins, and leaves the plant's variant flags unchanged. -/
theorem laser_spec (st : GameState) (r c : ℕ) (p : Plant)
    (hfind : findCell st.plants r c = some p)
    (hrem : p.is_removed = false) :
    (p.is_weed = true →
      actionLaser st r c =
        (.ok .weedCleared,
         { st with
           plants := updateCell r c (fun _ => resetToEmpty r c) st.plants
           score := st.score + 50
           coins := st.coins + 10
           statsWeedsRemoved := st.statsWeedsRemoved + 1 }) ∧
      findCell (actionLaser st r c).2.plants r c = some (resetToEmpty r c)) ∧
    (∀ h, p.is_weed = false → p.health = some h →
      actionLaser st r c =
        (.ok .vegHit,
         { st with
           plants :=
             updateCell r c (fun q => { q with health := some (max 0 (h - 30)) })
               st.plants
           score := st.score - 100 }) ∧
      (actionLaser st r c).2.coins = st.coins ∧
      findCell (actionLaser st r c).2.plants r c =
        some { p with health := some (max 0 (h - 30)) }) := by
  constructor
  · intro hweed
    have heq : actionLaser st r c =
        (.ok .weedCleared,
         { st with
           plants := updateCell r c (fun _ => resetToEmpty r c) st.plants
           score := st.score + 50
           coins := st.coins + 10
           statsWeedsRemoved := st.statsWeedsRemoved + 1 }) := by
      unfold actionLaser
      rw [hfind]
      simp [hrem, hweed]
    refine ⟨heq, ?_⟩
    rw [heq]
    exact findCell_updateCell_reset r c st.plants p hfind
  · intro h hweed hh
    have heq : actionLaser st r c =
        (.ok .vegHit,
         { st with
           plants :=
             updateCell r c (fun q => { q with health := some (max 0 (h - 30)) })
               st.plants
           score := st.score - 100 }) := by
      unfold actionLaser
      rw [hfind]
      simp [hrem, hweed, hh]
    refine ⟨heq, by rw [heq], ?_⟩
    rw [heq]
    exact findCell_updateCell_self r c _ st.plants p hfind (fun x => ⟨rfl, rfl⟩)

/-- Witness for C3 (amended), on a concrete weed and a concrete
vegetable with health 50. -/
theorem laser_spec_witness :
    findCell laserState.plants 4 6 = some laserWeed ∧
    laserWeed.is_weed = true ∧ laserVeg.is_weed = false ∧
    (actionLaser laserState 4 6).1 = .ok .weedCleared ∧
    (actionLaser laserState 4 6).2.coins = 40 ∧
    findCell (actionLaser laserState 4 6).2.plants 4 6 =
      some (resetToEmpty 4 6) ∧
    (actionLaser laserState 4 7).1 = .ok .vegHit ∧
    (actionLaser laserState 4 7).2.coins = 30 ∧
    findCell (actionLaser laserState 4 7).2.plants 4 7 =
      some { laserVeg with health := some 20 } := by
  have h1 := laser_spec laserState 4 6 laserWeed rfl rfl
  have h2 := laser_spec laserState 4 7 laserVeg rfl rfl
  have h2m := h2.2 50 rfl rfl
  refine ⟨rfl, rfl, rfl, ?_, ?_, (h1.1 rfl).2, ?_, ?_, ?_⟩
  · rw [(h1.1 rfl).1]
  · rw [(h1.1 rfl).1]; decide
  · rw [h2m.1]
  · exact h2m.2.1
  · have := h2m.2.2
    norm_num at this ⊢
    exact this

/-! ### Claim C5: mature-weed contagion -/

theorem findCell_key (ps : List Plant) (r c : ℕ) (p : Plant)
    (h : findCell ps r c = some p) : p.row = r ∧ p.col = c := by
  have h2 := List.find?_some h
  simpa using h2

theorem findCellNR_key (ps : List Plant) (r c : ℕ) (p : Plant)
    (h : findCellNR ps r c = some p) :
    p.row = r ∧ p.col = c ∧ p.is_removed = false := by
  have h2 := List.find?_some h
  simp only [findCellNR] at h
  have h3 := List.find?_some h
  simp only [Bool.and_eq_true, decide_eq_true_eq, Bool.not_eq_true'] at h3
  exact ⟨h3.1.1, h3.1.2, h3.2⟩

theorem keyBool_false_of_ne (r c r' c' : ℕ) (x : Plant)
    (hr : x.row = r) (hc : x.col = c) (hne : (r', c') ≠ (r, c)) :
    (x.row = r' && x.col = c') = false := by
  subst hr hc
  by_cases h1 : x.row = r'
  · have h2 : ¬x.col = c' := fun h2 => hne (by rw [← h1, ← h2])
    simp [h2]
  · simp [h1]

theorem findCellNR_updateCellNR_ne (r c r' c' : ℕ) (f : Plant → Plant)
    (ps : List Plant) (hne : (r', c') ≠ (r, c))
    (hf : ∀ x, (f x).row = x.row ∧ (f x).col = x.col) :
    findCellNR (updateCellNR r c f ps) r' c' = findCellNR ps r' c' := by
  unfold findCellNR updateCellNR
  apply find?_updateFirst_disjoint
  · intro x hx
    simp only [Bool.and_eq_true, decide_eq_true_eq] at hx
    have := keyBool_false_of_ne r c r' c' x hx.1.1 hx.1.2 hne
    simp only [Bool.and_eq_false_iff] at this ⊢
    rcases this with h | h
    · exact Or.inl (Or.inl h)
    · exact Or.inl (Or.inr h)
  · intro x hx
    simp only [Bool.and_eq_true, decide_eq_true_eq] at hx
    have := keyBool_false_of_ne r c r' c' (f x)
      (by rw [(hf x).1, hx.1.1]) (by rw [(hf x).2, hx.1.2]) hne
    simp only [Bool.and_eq_false_iff] at this ⊢
    rcases this with h | h
    · exact Or.inl (Or.inl h)
    · exact Or.inl (Or.inr h)

theorem findCell_updateCellNR_ne (r c r' c' : ℕ) (f : Plant → Plant)
    (ps : List Plant) (hne : (r', c') ≠ (r, c))
    (hf : ∀ x, (f x).row = x.row ∧ (f x).col = x.col) :
    findCell (updateCellNR r c f ps) r' c' = findCell ps r' c' := by
  unfold findCell updateCellNR
  apply find?_updateFirst_disjoint
  · intro x hx
    simp only [Bool.and_eq_true, decide_eq_true_eq] at hx
    exact keyBool_false_of_ne r c r' c' x hx.1.1 hx.1.2 hne
  · intro x hx
    simp only [Bool.and_eq_true, decide_eq_true_eq] at hx
    exact keyBool_false_of_ne r c r' c' (f x)
      (by rw [(hf x).1, hx.1.1]) (by rw [(hf x).2, hx.1.2]) hne

theorem findCellNR_updateCellNR_self (r c : ℕ) (f : Plant → Plant)
    (ps : List Plant) (p : Plant) (hfind : findCellNR ps r c = some p)
    (hf : ∀ x, (f x).row = x.row ∧ (f x).col = x.col ∧
      (f x).is_removed = x.is_removed) :
    findCellNR (updateCellNR r c f ps) r c = some (f p) := by
  unfold findCellNR updateCellNR at *
  rw [find?_updateFirst_self, hfind]
  · rfl
  · intro x hx
    simp only [Bool.and_eq_true, decide_eq_true_eq, Bool.not_eq_true'] at hx ⊢
    obtain ⟨h1, h2, h3⟩ := hf x
    exact ⟨⟨by rw [h1, hx.1.1], by rw [h2, hx.1.2]⟩, by rw [h3, hx.2]⟩

theorem findCellNR_updateCell_ne (r c r' c' : ℕ) (f : Plant → Plant)
    (ps : List Plant) (hne : (r', c') ≠ (r, c))
    (hf : ∀ x, x.row = r → x.col = c → (f x).row = r ∧ (f x).col = c) :
    findCellNR (updateCell r c f ps) r' c' = findCellNR ps r' c' := by
  unfold findCellNR updateCell
  apply find?_updateFirst_disjoint
  · intro x hx
    simp only [Bool.and_eq_true, decide_eq_true_eq] at hx
    have := keyBool_false_of_ne r c r' c' x hx.1 hx.2 hne
    simp only [Bool.and_eq_false_iff] at this ⊢
    rcases this with h | h
    · exact Or.inl (Or.inl h)
    · exact Or.inl (Or.inr h)
  · intro x hx
    simp only [Bool.and_eq_true, decide_eq_true_eq] at hx
    obtain ⟨h1, h2⟩ := hf x hx.1 hx.2
    have := keyBool_false_of_ne r c r' c' (f x) h1 h2 hne
    simp only [Bool.and_eq_false_iff] at this ⊢
    rcases this with h | h
    · exact Or.inl (Or.inl h)
    · exact Or.inl (Or.inr h)

theorem spreadStep_cell_ne (choices : List ℕ) (acc : List Plant × List (ℕ × ℕ))
    (nbr : ℤ × ℤ) (r' c' : ℕ)
    (h : ¬(0 ≤ nbr.1 ∧ nbr.1 < 8 ∧ 0 ≤ nbr.2 ∧ nbr.2 < 8 ∧
      nbr.1.toNat = r' ∧ nbr.2.toNat = c')) :
    findCell (spreadStep choices acc nbr).1 r' c' = findCell acc.1 r' c' ∧
    findCellNR (spreadStep choices acc nbr).1 r' c' = findCellNR acc.1 r' c' := by
  unfold spreadStep
  split_ifs with hb
  · exact ⟨rfl, rfl⟩
  · push_neg at hb
    have hne : (r', c') ≠ (nbr.1.toNat, nbr.2.toNat) := by
      intro he
      have h1 : nbr.1.toNat = r' := (congrArg Prod.fst he).symm
      have h2 : nbr.2.toNat = c' := (congrArg Prod.snd he).symm
      exact h ⟨by omega, by omega, by omega, by omega, h1, h2⟩
    cases hcell : findCellNR acc.1 nbr.1.toNat nbr.2.toNat with
    | none => simp [hcell]
    | some np =>
      by_cases hveg : np.is_vegetable = true
      · simp only [hcell, hveg, if_true]
        refine ⟨?_, ?_⟩
        · exact findCell_updateCellNR_ne _ _ _ _ _ _ hne (fun x => ⟨rfl, rfl⟩)
        · exact findCellNR_updateCellNR_ne _ _ _ _ _ _ hne (fun x => ⟨rfl, rfl⟩)
      · simp only [Bool.not_eq_true] at hveg
        simp [hcell, hveg]

theorem spreadStep_at_cell (choices : List ℕ) (acc : List Plant × List (ℕ × ℕ))
    (nbr : ℤ × ℤ)
    (hb : 0 ≤ nbr.1 ∧ nbr.1 < 8 ∧ 0 ≤ nbr.2 ∧ nbr.2 < 8)
    (q : Plant) (hq : findCellNR acc.1 nbr.1.toNat nbr.2.toNat = some q) :
    (q.is_vegetable = true →
      findCellNR (spreadStep choices acc nbr).1 nbr.1.toNat nbr.2.toNat =
        some (invadeUpdate
          (spreadWeedTypes.getD (choices.getD acc.2.length 0 % 3) "") q)) ∧
    (q.is_vegetable = false → spreadStep choices acc nbr = acc) := by
  unfold spreadStep
  rw [if_neg (by omega)]
  constructor
  · intro hveg
    simp only [hq, hveg, if_true]
    exact findCellNR_updateCellNR_self _ _ _ _ q hq (fun x => ⟨rfl, rfl, rfl⟩)
  · intro hnv
    simp [hq, hnv]

theorem spreadFold_untouched (nbrs : List (ℤ × ℤ)) (choices : List ℕ)
    (acc : List Plant × List (ℕ × ℕ)) (r' c' : ℕ)
    (h : ∀ nbr ∈ nbrs, ¬(0 ≤ nbr.1 ∧ nbr.1 < 8 ∧ 0 ≤ nbr.2 ∧ nbr.2 < 8 ∧
      nbr.1.toNat = r' ∧ nbr.2.toNat = c')) :
    findCell (nbrs.foldl (spreadStep choices) acc).1 r' c' =
      findCell acc.1 r' c' ∧
    findCellNR (nbrs.foldl (spreadStep choices) acc).1 r' c' =
      findCellNR acc.1 r' c' := by
  induction nbrs generalizing acc with
  | nil => exact ⟨rfl, rfl⟩
  | cons u us ih =>
    simp only [List.foldl_cons]
    have hstep := spreadStep_cell_ne choices acc u r' c' (h u (by simp))
    have hrest := ih (spreadStep choices acc u) (fun nbr hn => h nbr (by simp [hn]))
    exact ⟨hrest.1.trans hstep.1, hrest.2.trans hstep.2⟩

theorem spreadFold_at_cell (choices : List ℕ) (t : ℤ × ℤ)
    (htb : 0 ≤ t.1 ∧ t.1 < 8 ∧ 0 ≤ t.2 ∧ t.2 < 8) :
    ∀ (nbrs : List (ℤ × ℤ)) (acc : List Plant × List (ℕ × ℕ)), t ∈ nbrs →
    (∀ u ∈ nbrs, u ≠ t → ¬(0 ≤ u.1 ∧ u.1 < 8 ∧ 0 ≤ u.2 ∧ u.2 < 8 ∧
      u.1.toNat = t.1.toNat ∧ u.2.toNat = t.2.toNat)) →
    nbrs.Nodup →
    ∀ q, findCellNR acc.1 t.1.toNat t.2.toNat = some q →
    (q.is_vegetable = true →
      ∃ s, findCellNR (nbrs.foldl (spreadStep choices) acc).1
        t.1.toNat t.2.toNat = some (invadeUpdate s q)) ∧
    (q.is_vegetable = false →
      findCellNR (nbrs.foldl (spreadStep choices) acc).1
        t.1.toNat t.2.toNat = some q) := by
  intro nbrs
  induction nbrs with
  | nil => intro acc ht; cases ht
  | cons u us ih =>
    intro acc ht hothers hnodup q hq
    by_cases hut : u = t
    · subst hut
      have hnotin : u ∉ us := (List.nodup_cons.mp hnodup).1
      have hrest : ∀ nbr ∈ us, ¬(0 ≤ nbr.1 ∧ nbr.1 < 8 ∧ 0 ≤ nbr.2 ∧ nbr.2 < 8 ∧
          nbr.1.toNat = u.1.toNat ∧ nbr.2.toNat = u.2.toNat) := by
        intro nbr hn
        have hne : nbr ≠ u := fun he => hnotin (he ▸ hn)
        exact hothers nbr (by simp [hn]) hne
      have hsu := spreadStep_at_cell choices acc u htb q hq
      constructor
      · intro hveg
        refine ⟨spreadWeedTypes.getD (choices.getD acc.2.length 0 % 3) "", ?_⟩
        simp only [List.foldl_cons]
        have huntouched :=
          spreadFold_untouched us choices (spreadStep choices acc u) _ _ hrest
        rw [huntouched.2]
        exact hsu.1 hveg
      · intro hnv
        simp only [List.foldl_cons, hsu.2 hnv]
        have huntouched := spreadFold_untouched us choices acc _ _ hrest
        rw [huntouched.2]
        exact hq
    · have hstep := spreadStep_cell_ne choices acc u t.1.toNat t.2.toNat
        (hothers u (by simp) hut)
      simp only [List.foldl_cons]
      have ht' : t ∈ us := by
        rcases List.mem_cons.mp ht with h | h
        · exact absurd h.symm hut
        · exact h
      exact ih (spreadStep choices acc u) ht'
        (fun v hv hvt => hothers v (by simp [hv]) hvt)
        (List.nodup_cons.mp hnodup).2 q (by rw [hstep.2]; exact hq)

theorem findCell_updateCell_const (r c : ℕ) (pnew : Plant) (ps : List Plant)
    (p : Plant) (hfind : findCell ps r c = some p)
    (hrow : pnew.row = r) (hcol : pnew.col = c) :
    findCell (updateCell r c (fun _ => pnew) ps) r c = some pnew := by
  unfold findCell updateCell at *
  rw [find?_updateFirst_self, hfind]
  · rfl
  · intro x _
    simp [hrow, hcol]

theorem findCell_updateCell_ne2 (r c r' c' : ℕ) (f : Plant → Plant)
    (ps : List Plant) (hne : (r', c') ≠ (r, c))
    (hf : ∀ x, x.row = r → x.col = c → (f x).row = r ∧ (f x).col = c) :
    findCell (updateCell r c f ps) r' c' = findCell ps r' c' := by
  unfold findCell updateCell
  apply find?_updateFirst_disjoint
  · intro x hx
    simp only [Bool.and_eq_true, decide_eq_true_eq] at hx
    exact keyBool_false_of_ne r c r' c' x hx.1 hx.2 hne
  · intro x hx
    simp only [Bool.and_eq_true, decide_eq_true_eq] at hx
    obtain ⟨h1, h2⟩ := hf x hx.1 hx.2
    exact keyBool_false_of_ne r c r' c' (f x) h1 h2 hne

/-- C5.  When a weed at stage 2 is watered it reaches the maximum stage
(3 in `server_game.py`) and the contagion runs: every in-bounds
orthogonal neighbour holding a (non-removed) vegetable — a
mature-eligible Crop — is flipped to a Weed at `growth_stage = 1` with
full health 100 and unchanged cell id, non-vegetable neighbours are
untouched, and every cell other than the watered one and its four
orthogonal neighbours is unchanged: the contagion is capped at one
hop. -/
theorem weed_spread_on_maturity (st : GameState) (r c : ℕ) (rng : WaterRng)
    (now : ℚ) (p : Plant) (hh : ℤ)
    (hfind : findCell st.plants r c = some p)
    (hrem : p.is_removed = false) (hemp : p.is_empty = false)
    (hseed : p.is_seed = false) (hweed : p.is_weed = true)
    (hstage : p.growth_stage = some 2) (hhealth : p.health = some hh) :
    (∃ infos, (actionWater st r c rng now).1 =
       .ok (.watered true true 3 hh infos)) ∧
    (∃ w, findCell (actionWater st r c rng now).2.plants r c = some w ∧
       w.is_weed = true ∧ w.growth_stage = some 3) ∧
    (∀ nbr ∈ orthNeighbors r c,
      (0 ≤ nbr.1 ∧ nbr.1 < 8 ∧ 0 ≤ nbr.2 ∧ nbr.2 < 8) →
      ∀ q, findCellNR st.plants nbr.1.toNat nbr.2.toNat = some q →
        (q.is_vegetable = true →
          ∃ q', findCellNR (actionWater st r c rng now).2.plants
              nbr.1.toNat nbr.2.toNat = some q' ∧
            q'.is_weed = true ∧ q'.is_vegetable = false ∧
            q'.growth_stage = some 1 ∧ q'.health = some 100 ∧
            q'.row = q.row ∧ q'.col = q.col) ∧
        (q.is_vegetable = false →
          findCellNR (actionWater st r c rng now).2.plants
            nbr.1.toNat nbr.2.toNat = some q)) ∧
    (∀ r' c' : ℕ, (r', c') ≠ (r, c) →
      (∀ nbr ∈ orthNeighbors r c, ¬(0 ≤ nbr.1 ∧ nbr.1 < 8 ∧ 0 ≤ nbr.2 ∧
        nbr.2 < 8 ∧ nbr.1.toNat = r' ∧ nbr.2.toNat = c')) →
      findCell (actionWater st r c rng now).2.plants r' c' =
        findCell st.plants r' c') := by
  obtain ⟨hkr, hkc⟩ := findCell_key st.plants r c p hfind
  have h12 : (actionWater st r c rng now).1 =
      .ok (.watered true true 3 hh
        (weedSpread (updateCell r c (fun _ =>
          { p with
            soil_moisture := some (min 100 (p.soil_moisture.getD 50 + 30))
            growth_stage := some 3
            last_watered := some now }) st.plants) r c rng.spreadChoices).2) ∧
      (actionWater st r c rng now).2.plants =
        (weedSpread (updateCell r c (fun _ =>
          { p with
            soil_moisture := some (min 100 (p.soil_moisture.getD 50 + 30))
            growth_stage := some 3
            last_watered := some now }) st.plants) r c rng.spreadChoices).1 := by
    unfold actionWater
    rw [hfind]
    simp [hrem, hemp, hseed, hweed, hstage, hhealth]
  set P3 : Plant :=
    { p with
      soil_moisture := some (min 100 (p.soil_moisture.getD 50 + 30))
      growth_stage := some 3
      last_watered := some now } with hP3
  set PL : List Plant := updateCell r c (fun _ => P3) st.plants with hPL
  have hcenter : ∀ nbr ∈ orthNeighbors r c, ¬(0 ≤ nbr.1 ∧ nbr.1 < 8 ∧
      0 ≤ nbr.2 ∧ nbr.2 < 8 ∧ nbr.1.toNat = r ∧ nbr.2.toNat = c) := by
    intro nbr hmem
    simp only [orthNeighbors, List.mem_cons, List.not_mem_nil, or_false] at hmem
    rcases hmem with rfl | rfl | rfl | rfl <;> (intro hcon; dsimp only at hcon; omega)
  have hnodup : (orthNeighbors r c).Nodup := by
    simp only [orthNeighbors, List.nodup_cons, List.mem_cons, List.not_mem_nil,
      or_false, List.nodup_nil, and_true, not_or, Prod.mk.injEq, not_and]
    norm_num
    omega
  refine ⟨⟨_, h12.1⟩, ?_, ?_, ?_⟩
  · refine ⟨P3, ?_, hweed, rfl⟩
    rw [h12.2]
    have huc : findCell PL r c = some P3 :=
      findCell_updateCell_const r c P3 st.plants p hfind hkr hkc
    have hu := spreadFold_untouched (orthNeighbors r c) rng.spreadChoices
      (PL, []) r c hcenter
    unfold weedSpread
    rw [hu.1]
    exact huc
  · intro nbr hmem hb q hq
    have hnecell : (nbr.1.toNat, nbr.2.toNat) ≠ (r, c) := by
      intro he
      have h1 : nbr.1.toNat = r := congrArg Prod.fst he
      have h2 : nbr.2.toNat = c := congrArg Prod.snd he
      exact hcenter nbr hmem ⟨hb.1, hb.2.1, hb.2.2.1, hb.2.2.2, h1, h2⟩
    have hq' : findCellNR PL nbr.1.toNat nbr.2.toNat = some q := by
      rw [hPL, findCellNR_updateCell_ne r c nbr.1.toNat nbr.2.toNat
        (fun _ => P3) st.plants hnecell (fun x _ _ => ⟨hkr, hkc⟩)]
      exact hq
    have hothers : ∀ u ∈ orthNeighbors r c, u ≠ nbr →
        ¬(0 ≤ u.1 ∧ u.1 < 8 ∧ 0 ≤ u.2 ∧ u.2 < 8 ∧
          u.1.toNat = nbr.1.toNat ∧ u.2.toNat = nbr.2.toNat) := by
      intro u hu hune
      have hmem2 := hmem
      simp only [orthNeighbors, List.mem_cons, List.not_mem_nil, or_false]
        at hu hmem2
      rcases hu with rfl | rfl | rfl | rfl <;>
        rcases hmem2 with rfl | rfl | rfl | rfl <;>
          first
            | exact absurd rfl hune
            | (intro hcon; dsimp only at hcon; omega)
    have hfold := spreadFold_at_cell rng.spreadChoices nbr hb
      (orthNeighbors r c) (PL, []) hmem hothers hnodup q hq'
    constructor
    · intro hveg
      obtain ⟨s, hs⟩ := hfold.1 hveg
      refine ⟨invadeUpdate s q, ?_, rfl, rfl, rfl, rfl, rfl, rfl⟩
      rw [h12.2]
      unfold weedSpread
      exact hs
    · intro hnv
      rw [h12.2]
      unfold weedSpread
      exact hfold.2 hnv
  · intro r' c' hne hnot
    rw [h12.2]
    unfold weedSpread
    have hu := spreadFold_untouched (orthNeighbors r c) rng.spreadChoices
      (PL, []) r' c' hnot
    rw [hu.1, hPL]
    exact findCell_updateCell_ne2 r c r' c' (fun _ => P3) st.plants hne
      (fun x _ _ => ⟨hkr, hkc⟩)

/-- Witness for C5 on the spec scenario: a weed at `(3, 3)` at stage 2
is watered, reaches stage 3, and the mature crop at `(2, 3)` becomes a
weed at `growth_stage = 1` with health 100. -/
theorem weed_spread_on_maturity_witness :
    findCell c5State.plants 3 3 = some c5Weed ∧
    c5Weed.growth_stage = some 2 ∧ c5Weed.is_weed = true ∧
    findCellNR c5State.plants 2 3 = some c5Crop ∧
    c5Crop.is_vegetable = true ∧
    (∃ infos, (actionWater c5State 3 3 ⟨0, 0, 0, 0, [0]⟩ 5).1 =
      .ok (.watered true true 3 100 infos)) ∧
    (∃ q', findCellNR (actionWater c5State 3 3 ⟨0, 0, 0, 0, [0]⟩ 5).2.plants
        2 3 = some q' ∧ q'.is_weed = true ∧ q'.is_vegetable = false ∧
      q'.growth_stage = some 1 ∧ q'.health = some 100) := by
  have hth := weed_spread_on_maturity c5State 3 3 ⟨0, 0, 0, 0, [0]⟩ 5 c5Weed 100
    rfl rfl rfl rfl rfl rfl rfl
  refine ⟨rfl, rfl, rfl, rfl, rfl, hth.1,
    ⟨invadeUpdate "dandelion" c5Crop, by decide, rfl, rfl, rfl, rfl⟩⟩

/-! ### Claim C7: the coordinate maps are inverse to each other -/

theorem pyInt_cell (cs : ℚ) (hcs : 0 < cs) (n : ℕ) (off w : ℚ)
    (h1 : off + n * cs ≤ w) (h2 : w < off + (n + 1) * cs) :
    pyInt ((w - off) / cs) = n := by
  have hq1 : (n : ℚ) ≤ (w - off) / cs := by
    rw [le_div_iff₀ hcs]
    linarith
  have hq2 : (w - off) / cs < n + 1 := by
    rw [div_lt_iff₀ hcs]
    linarith
  have hnn : (0 : ℚ) ≤ (w - off) / cs :=
    le_trans (by positivity) hq1
  unfold pyInt
  rw [if_pos hnn, Int.floor_eq_iff]
  constructor
  · exact_mod_cast hq1
  · push_cast
    exact hq2

/-- C7.  With a positive cell size, `world_to_grid` is the exact
inverse of `grid_to_world` on every valid grid cell, and any world
point lying inside a cell's bounds (a half-open square of one cell
size) is mapped back to exactly that cell. -/
theorem grid_world_inverse (cs : ℚ) (hcs : 0 < cs) (row col : ℕ)
    (hrow : row < gridSize) (hcol : col < gridSize) :
    world_to_grid cs (grid_to_world cs row col).1 (grid_to_world cs row col).2
      = ((row : ℤ), (col : ℤ)) ∧
    (∀ x z : ℚ,
      offsetX + col * cs ≤ x → x < offsetX + (col + 1) * cs →
      offsetZ + row * cs ≤ z → z < offsetZ + (row + 1) * cs →
      world_to_grid cs x z = ((row : ℤ), (col : ℤ))) := by
  have part2 : ∀ x z : ℚ,
      offsetX + col * cs ≤ x → x < offsetX + (col + 1) * cs →
      offsetZ + row * cs ≤ z → z < offsetZ + (row + 1) * cs →
      world_to_grid cs x z = ((row : ℤ), (col : ℤ)) := by
    intro x z h1 h2 h3 h4
    unfold world_to_grid
    rw [pyInt_cell cs hcs row offsetZ z h3 h4,
      pyInt_cell cs hcs col offsetX x h1 h2]
  refine ⟨?_, part2⟩
  apply part2 <;> unfold grid_to_world <;> dsimp only <;> linarith

/-- Witness for C7 at cell `(2, 3)` with the default cell size 0.5, and
for a world point strictly inside that cell. -/
theorem grid_world_inverse_witness :
    (0 : ℚ) < 1/2 ∧ 2 < gridSize ∧ 3 < gridSize ∧
    world_to_grid (1/2) (grid_to_world (1/2) 2 3).1
      (grid_to_world (1/2) 2 3).2 = (2, 3) ∧
    world_to_grid (1/2) (-2 + 3 * (1/2) + 1/10) (-2 + 2 * (1/2) + 2/5) =
      (2, 3) := by
  have hth := grid_world_inverse (1/2) (by norm_num) 2 3
    (by norm_num [gridSize]) (by norm_num [gridSize])
  refine ⟨by norm_num, by norm_num [gridSize], by norm_num [gridSize],
    hth.1, ?_⟩
  apply hth.2 <;> norm_num [offsetX, offsetZ]

/-! ### Claim C8: resource-ledger invariants -/

/-- C8.  From a valid ledger state (`max_energy = 100`,
`0 ≤ energy`, `0 ≤ coins`), every operation keeps energy and coins
nonnegative, and the two consuming operations are all-or-nothing:
`consume_energy`/`spend_coins` either deduct the full requested amount
(returning `true`) or return `false` leaving the state unchanged. -/
theorem resource_ledger_invariants (s : RMState)
    (hmax : s.max_energy = 100) (he : 0 ≤ s.energy) (hc : 0 ≤ s.coins) :
    (∀ a : ℚ, 0 ≤ (consume_energy a s).2.energy ∧
      (consume_energy a s).2.coins = s.coins ∧
      ((consume_energy a s).1 = true →
        (consume_energy a s).2.energy = s.energy - a) ∧
      ((consume_energy a s).1 = false → (consume_energy a s).2 = s)) ∧
    (∀ a : ℚ, 0 ≤ a → 0 ≤ (add_energy a s).2.energy ∧
      (add_energy a s).2.coins = s.coins) ∧
    (∀ dt : ℚ, 0 ≤ dt → 0 ≤ (regenerate_energy dt s).energy ∧
      (regenerate_energy dt s).coins = s.coins) ∧
    (∀ a : ℤ, 0 ≤ (add_coins a s).coins ∧ (add_coins a s).energy = s.energy) ∧
    (∀ a : ℤ, 0 ≤ (spend_coins a s).2.coins ∧
      (spend_coins a s).2.energy = s.energy ∧
      ((spend_coins a s).1 = true →
        (spend_coins a s).2.coins = s.coins - a) ∧
      ((spend_coins a s).1 = false → (spend_coins a s).2 = s)) ∧
    (∀ k a, 0 ≤ (use_seed k a s).2.energy ∧ 0 ≤ (use_seed k a s).2.coins) ∧
    (∀ k amt, 0 ≤ (sell_harvested_crop k amt s).2.energy ∧
      0 ≤ (sell_harvested_crop k amt s).2.coins) ∧
    (∀ k, 0 ≤ (upgrade_tool k s).2.energy ∧ 0 ≤ (upgrade_tool k s).2.coins) ∧
    (∀ k, 0 ≤ (repair_tool k s).2.energy ∧ 0 ≤ (repair_tool k s).2.coins) := by
  have hadd : ∀ (a : ℤ) (t : RMState), 0 ≤ t.coins →
      0 ≤ (add_coins a t).coins ∧ (add_coins a t).energy = t.energy := by
    intro a t ht
    unfold add_coins
    split_ifs with h
    · exact ⟨by dsimp only; omega, rfl⟩
    · exact ⟨ht, rfl⟩
  have hspend : ∀ (a : ℤ) (t : RMState), 0 ≤ t.coins →
      0 ≤ (spend_coins a t).2.coins ∧ (spend_coins a t).2.energy = t.energy ∧
      ((spend_coins a t).1 = true → (spend_coins a t).2.coins = t.coins - a) ∧
      ((spend_coins a t).1 = false → (spend_coins a t).2 = t) := by
    intro a t ht
    unfold spend_coins
    split_ifs with h
    · exact ⟨by dsimp only; omega, rfl, fun _ => rfl, by simp⟩
    · exact ⟨ht, rfl, by simp, fun _ => rfl⟩
  refine ⟨?_, ?_, ?_, fun a => hadd a s hc, fun a => hspend a s hc, ?_, ?_, ?_, ?_⟩
  · intro a
    unfold consume_energy
    split_ifs with h
    · exact ⟨by dsimp only; linarith, rfl, fun _ => rfl, by simp⟩
    · exact ⟨he, rfl, by simp, fun _ => rfl⟩
  · intro a ha
    unfold add_energy
    refine ⟨?_, rfl⟩
    have : (0 : ℚ) ≤ min s.max_energy (s.energy + a) := by
      rw [hmax]
      exact le_min (by norm_num) (by linarith)
    exact this
  · intro dt hdt
    unfold regenerate_energy
    refine ⟨?_, rfl⟩
    have : (0 : ℚ) ≤ min s.max_energy (s.energy + (1/50) * dt) := by
      rw [hmax]
      exact le_min (by norm_num) (by positivity)
    exact this
  · intro k a
    unfold use_seed
    cases alGet s.seeds k with
    | none => exact ⟨he, hc⟩
    | some n =>
      dsimp only
      split_ifs with h
      · exact ⟨he, hc⟩
      · exact ⟨he, hc⟩
  · intro k amt
    unfold sell_harvested_crop
    cases alGet s.harvested_crops k with
    | none => exact ⟨he, hc⟩
    | some stock =>
      dsimp only
      split_ifs with h
      · exact ⟨he, hc⟩
      · set amt2 : ℤ :=
          match amt with
          | none => stock
          | some a => if stock < a then stock else a
        have h1 := hadd (amt2 * (alGet crop_prices k).getD 1)
          { s with harvested_crops := alSet k (stock - amt2) s.harvested_crops } hc
        exact ⟨by rw [h1.2]; exact he, h1.1⟩
  · intro k
    unfold upgrade_tool
    cases alGet s.tools k with
    | none => exact ⟨he, hc⟩
    | some tool =>
      dsimp only
      have hs := hspend (50 * (tool.level : ℤ) ^ 2) s hc
      cases hcase : spend_coins (50 * (tool.level : ℤ) ^ 2) s with
      | mk ok s1 =>
        cases ok with
        | false => exact ⟨he, hc⟩
        | true =>
          rw [hcase] at hs
          exact ⟨by rw [show s1.energy = s.energy from hs.2.1] at *; exact he,
            hs.1⟩
  · intro k
    unfold repair_tool
    cases alGet s.tools k with
    | none => exact ⟨he, hc⟩
    | some tool =>
      dsimp only
      split_ifs with h
      · exact ⟨he, hc⟩
      · have hs := hspend (10 * (tool.level : ℤ)) s hc
        cases hcase : spend_coins (10 * (tool.level : ℤ)) s with
        | mk ok s1 =>
          cases ok with
          | false => exact ⟨he, hc⟩
          | true =>
            rw [hcase] at hs
            exact ⟨by rw [show s1.energy = s.energy from hs.2.1] at *; exact he,
              hs.1⟩

/-- Witness for C8 on the constructor-default ledger: a successful full
deduction, a failed over-budget deduction leaving the state unchanged,
and a tool upgrade keeping coins nonnegative. -/
theorem resource_ledger_invariants_witness :
    rm0.max_energy = 100 ∧ (0 : ℚ) ≤ rm0.energy ∧ (0 : ℤ) ≤ rm0.coins ∧
    (consume_energy 3 rm0).1 = true ∧
    (consume_energy 3 rm0).2.energy = 97 ∧
    (spend_coins 1000 rm0).1 = false ∧
    (spend_coins 1000 rm0).2 = rm0 ∧
    0 ≤ (upgrade_tool "weeder" rm0).2.coins := by
  have hth := resource_ledger_invariants rm0 rfl (by norm_num [rm0]) (by norm_num [rm0])
  refine ⟨rfl, by norm_num [rm0], by norm_num [rm0], ?_, ?_, ?_, ?_, (hth.2.2.2.2.2.2.2.1 "weeder").2⟩
  · norm_num [consume_energy, rm0]
  · have := (hth.1 3).2.2.1
    rw [this (by norm_num [consume_energy, rm0])]
    norm_num [rm0]
  · norm_num [spend_coins, rm0]
  · have := (hth.2.2.2.2.1 1000).2.2.2
    exact this (by norm_num [spend_coins, rm0])

/-! ### Claim C9: greedy batch harvest drains the queue -/

theorem selectNearestAux_spec (cx cz : ℚ) :
    ∀ (l : List HPlant) (idx0 bi : ℕ) (bd : ℚ),
    ∃ ri rd, selectNearestAux cx cz l idx0 (some (bi, bd)) = some (ri, rd) ∧
      rd ≤ bd ∧ (∀ p ∈ l, rd ≤ dist2 cx cz p) ∧
      ((ri = bi ∧ rd = bd) ∨
        ∃ j, j < l.length ∧ ri = idx0 + j ∧
          ∃ p, l[j]? = some p ∧ rd = dist2 cx cz p) := by
  intro l
  induction l with
  | nil =>
    intro idx0 bi bd
    exact ⟨bi, bd, rfl, le_refl bd, by simp, Or.inl ⟨rfl, rfl⟩⟩
  | cons p ps ih =>
    intro idx0 bi bd
    by_cases hd : dist2 cx cz p < bd
    · obtain ⟨ri, rd, heq, hle, hall, hdisj⟩ := ih (idx0 + 1) idx0 (dist2 cx cz p)
      refine ⟨ri, rd, ?_, le_of_lt (lt_of_le_of_lt hle hd), ?_, ?_⟩
      · unfold selectNearestAux
        simp only [hd, if_true]
        exact heq
      · intro x hx
        rcases List.mem_cons.mp hx with rfl | hx
        · exact hle
        · exact hall x hx
      · rcases hdisj with ⟨h1, h2⟩ | ⟨j, hj, hrij, x, hx, hrd⟩
        · exact Or.inr ⟨0, by simp, by omega, p, by simp, h2⟩
        · exact Or.inr ⟨j + 1, by simpa using hj, by omega, x, by simpa using hx, hrd⟩
    · obtain ⟨ri, rd, heq, hle, hall, hdisj⟩ := ih (idx0 + 1) bi bd
      refine ⟨ri, rd, ?_, hle, ?_, ?_⟩
      · unfold selectNearestAux
        simp only [hd, if_false]
        exact heq
      · intro x hx
        rcases List.mem_cons.mp hx with rfl | hx
        · exact le_trans hle (not_lt.mp hd)
        · exact hall x hx
      · rcases hdisj with h | ⟨j, hj, hrij, x, hx, hrd⟩
        · exact Or.inl h
        · exact Or.inr ⟨j + 1, by simpa using hj, by omega, x, by simpa using hx, hrd⟩

theorem selectNearest_spec (cx cz : ℚ) (q : List HPlant) (hne : q ≠ []) :
    ∃ i sel, selectNearest cx cz q = some i ∧ q[i]? = some sel ∧
      ∀ p ∈ q, dist2 cx cz sel ≤ dist2 cx cz p := by
  cases q with
  | nil => exact absurd rfl hne
  | cons p ps =>
    obtain ⟨ri, rd, heq, hle, hall, hdisj⟩ :=
      selectNearestAux_spec cx cz ps 1 0 (dist2 cx cz p)
    have hsel : selectNearest cx cz (p :: ps) = some ri := by
      unfold selectNearest
      have hstep1 : selectNearestAux cx cz (p :: ps) 0 none =
          selectNearestAux cx cz ps 1 (some (0, dist2 cx cz p)) := rfl
      rw [hstep1, heq]
      rfl
    rcases hdisj with ⟨h1, h2⟩ | ⟨j, hj, hrij, x, hx, hrd⟩
    · refine ⟨ri, p, hsel, by rw [h1]; simp, ?_⟩
      intro x hx
      rcases List.mem_cons.mp hx with rfl | hx
      · exact le_refl _
      · rw [← h2]
        exact hall x hx
    · refine ⟨ri, x, hsel, ?_, ?_⟩
      · rw [hrij, Nat.add_comm 1 j]
        simpa using hx
      · intro y hy
        rcases List.mem_cons.mp hy with rfl | hy
        · rw [← hrd]
          exact hle
        · rw [← hrd]
          exact hall y hy

theorem cons_eraseIdx_perm :
    ∀ (l : List HPlant) (i : ℕ) (x : HPlant), l[i]? = some x →
      (x :: l.eraseIdx i).Perm l := by
  intro l
  induction l with
  | nil => intro i x hx; simp at hx
  | cons a l ih =>
    intro i x hx
    cases i with
    | zero =>
      simp only [List.getElem?_cons_zero, Option.some_inj] at hx
      subst hx
      simp [List.eraseIdx]
    | succ i =>
      simp only [List.getElem?_cons_succ] at hx
      have hperm := ih i x hx
      exact (List.Perm.swap a x (l.eraseIdx i)).trans (hperm.cons a)

theorem harvestStep_spec (cx cz : ℚ) (q : List HPlant) (hne : q ≠ []) :
    ∃ i sel,
      harvestStep cx cz true q = some (sel, q.eraseIdx i, 1) ∧
      harvestStep cx cz false q = some (sel, q.eraseIdx i, 0) ∧
      q[i]? = some sel ∧
      (∀ p ∈ q, dist2 cx cz sel ≤ dist2 cx cz p) ∧
      (q.eraseIdx i).length + 1 = q.length ∧
      (sel :: q.eraseIdx i).Perm q := by
  obtain ⟨i, sel, hsel, hget, hmin⟩ := selectNearest_spec cx cz q hne
  have hi : i < q.length := by
    by_contra hcon
    rw [List.getElem?_eq_none (by omega)] at hget
    exact Option.noConfusion hget
  refine ⟨i, sel, ?_, ?_, hget, hmin, List.length_eraseIdx_add_one hi,
    cons_eraseIdx_perm q i sel hget⟩
  · unfold harvestStep
    rw [hsel]
    dsimp only
    rw [hget]
    rfl
  · unfold harvestStep
    rw [hsel]
    dsimp only
    rw [hget]
    rfl

theorem drainAux_spec (pos : ℕ → ℚ × ℚ) (succ : ℕ → Bool) :
    ∀ (fuel k : ℕ) (q : List HPlant), q.length ≤ fuel →
      (drainAux pos succ fuel k q).2 = [] ∧
      (drainAux pos succ fuel k q).1.Perm q := by
  intro fuel
  induction fuel with
  | zero =>
    intro k q hq
    have : q = [] := List.length_eq_zero.mp (by omega)
    subst this
    exact ⟨rfl, List.Perm.refl []⟩
  | succ fuel ih =>
    intro k q hq
    by_cases hne : q = []
    · subst hne
      have hun : drainAux pos succ (fuel + 1) k [] = ([], []) := rfl
      rw [hun]
      exact ⟨rfl, List.Perm.refl []⟩
    · obtain ⟨i, sel, ht, hf, hget, hmin, hlen, hperm⟩ :=
        harvestStep_spec (pos k).1 (pos k).2 q hne
      have hstep : harvestStep (pos k).1 (pos k).2 (succ k) q =
          some (sel, q.eraseIdx i, if succ k then 1 else 0) := by
        cases hsk : succ k
        · rw [hf]
          rfl
        · rw [ht]
          rfl
      have hun : drainAux pos succ (fuel + 1) k q =
          match harvestStep (pos k).1 (pos k).2 (succ k) q with
          | none => ([], q)
          | some (p, q', _) =>
            let rest := drainAux pos succ fuel (k + 1) q'
            (p :: rest.1, rest.2) := rfl
      rw [hun, hstep]
      have hrec := ih (k + 1) (q.eraseIdx i) (by omega)
      exact ⟨hrec.1, (hrec.2.cons sel).trans hperm⟩

/-- C9.  One iteration of the batch-harvest drain on a non-empty queue
selects an entry at minimum Euclidean distance from the robot's
position and removes exactly that entry whether the harvest succeeds or
fails, so the queue shrinks by exactly one; consequently the drain
(with fuel `|queue|`) finishes with an empty queue, and the sequence of
attempted entries is a permutation of the initial queue — every entry
is attempted exactly once, none is retried. -/
theorem harvest_batch_greedy (q : List HPlant) :
    (∀ cx cz : ℚ, q ≠ [] →
      ∃ i sel,
        harvestStep cx cz true q = some (sel, q.eraseIdx i, 1) ∧
        harvestStep cx cz false q = some (sel, q.eraseIdx i, 0) ∧
        q[i]? = some sel ∧
        (∀ p ∈ q, dist2 cx cz sel ≤ dist2 cx cz p) ∧
        (q.eraseIdx i).length + 1 = q.length) ∧
    (∀ (pos : ℕ → ℚ × ℚ) (succ : ℕ → Bool),
      (drainQueue pos succ q).2 = [] ∧
      (drainQueue pos succ q).1.Perm q) := by
  constructor
  · intro cx cz hne
    obtain ⟨i, sel, ht, hf, hget, hmin, hlen, hperm⟩ := harvestStep_spec cx cz q hne
    exact ⟨i, sel, ht, hf, hget, hmin, hlen⟩
  · intro pos succ
    exact drainAux_spec pos succ q.length 0 q (le_refl _)

/-- Witness for C9 on the spec-scenario queue (distances 5, 1, 3):
greedy dispatch selects the entry at distance 1 first, and draining
empties the queue in 3 attempts. -/
theorem harvest_batch_greedy_witness :
    c9Queue ≠ [] ∧
    (∃ i sel,
      harvestStep 0 0 true c9Queue = some (sel, c9Queue.eraseIdx i, 1) ∧
      harvestStep 0 0 false c9Queue = some (sel, c9Queue.eraseIdx i, 0) ∧
      c9Queue[i]? = some sel ∧
      (∀ p ∈ c9Queue, dist2 0 0 sel ≤ dist2 0 0 p) ∧
      (c9Queue.eraseIdx i).length + 1 = c9Queue.length) ∧
    selectNearest 0 0 c9Queue = some 1 ∧
    (drainQueue (fun _ => (0, 0)) (fun _ => true) c9Queue).2 = [] ∧
    (drainQueue (fun _ => (0, 0)) (fun _ => true) c9Queue).1.length = 3 := by
  have hth := harvest_batch_greedy c9Queue
  have hd := hth.2 (fun _ => (0, 0)) (fun _ => true)
  refine ⟨by simp [c9Queue], hth.1 0 0 (by simp [c9Queue]), ?_, hd.1, ?_⟩
  · norm_num [selectNearest, selectNearestAux, c9Queue, dist2]
  · rw [hd.2.length_eq]
    rfl

/-! ### Claim C6: `calculate_path` -/

theorem neighbor_ne_self (cur d : Cell) (hd : d ∈ directions) :
    (cur.1 + d.1, cur.2 + d.2) ≠ cur := by
  intro h
  have h1 : cur.1 + d.1 = cur.1 := congrArg Prod.fst h
  have h2 : cur.2 + d.2 = cur.2 := congrArg Prod.snd h
  fin_cases hd <;> omega

theorem loop_eq_none (N : ℕ) (obs : Finset Cell) (start goal : Cell) (s : AState)
    (hpop : popMin s.openl = none) : loop N obs start goal s = none := by
  rw [loop.eq_def, hpop]

theorem loop_eq_goal (N : ℕ) (obs : Finset Cell) (start goal : Cell) (s : AState)
    (e : Cost × Cell) (rest : List (Cost × Cell))
    (hpop : popMin s.openl = some (e, rest)) (hg : e.2 = goal) :
    loop N obs start goal s =
      some (((rebuild s.parent (N * N + 1) goal) ++ [start]).reverse) := by
  rw [loop.eq_def]
  split
  · simp_all
  · rename_i e2 rest2 heq
    rw [hpop] at heq
    injection heq with heq
    injection heq with heq1 heq2
    subst heq1
    subst heq2
    rw [if_pos hg]

theorem loop_eq_top (N : ℕ) (obs : Finset Cell) (start goal : Cell) (s : AState)
    (e : Cost × Cell) (rest : List (Cost × Cell))
    (hpop : popMin s.openl = some (e, rest)) (hg : ¬e.2 = goal)
    (hcur : s.g e.2 = none) :
    loop N obs start goal s =
      loop N obs start goal { s with openl := rest } := by
  rw [loop.eq_def]
  split
  · simp_all
  · rename_i e2 rest2 heq
    rw [hpop] at heq
    injection heq with heq
    injection heq with heq1 heq2
    subst heq1
    subst heq2
    rw [if_neg hg]
    split
    · rfl
    · rename_i gc2 hcur2
      rw [hcur] at hcur2
      exact absurd hcur2 (by simp)

theorem loop_eq_relax (N : ℕ) (obs : Finset Cell) (start goal : Cell) (s : AState)
    (e : Cost × Cell) (rest : List (Cost × Cell))
    (hpop : popMin s.openl = some (e, rest)) (hg : ¬e.2 = goal)
    (gc : Cost) (hcur : s.g e.2 = some gc) :
    loop N obs start goal s =
      loop N obs start goal
        (relaxAll N obs goal e.2 gc (s.hg e.2 gc hcur) { s with openl := rest }) := by
  rw [loop.eq_def]
  split
  · simp_all
  · rename_i e2 rest2 heq
    rw [hpop] at heq
    injection heq with heq
    injection heq with heq1 heq2
    subst heq1
    subst heq2
    rw [if_neg hg]
    split
    · rename_i hcur2
      rw [hcur] at hcur2
      exact absurd hcur2.symm (by simp)
    · rename_i gc2 hcur2
      rw [hcur] at hcur2
      injection hcur2 with hcur2
      subst hcur2
      rfl

theorem relaxDir_bound (N : ℕ) (obs : Finset Cell) (goal cur : Cell) (gc : Cost)
    (hgc : 0 ≤ gc.re ∧ 0 ≤ gc.im) (s : AState) (d : Cell)
    (hvalid : isValidPos N obs (cur.1 + d.1, cur.2 + d.2) = true) :
    (relaxDir N obs goal cur gc hgc s d).g (cur.1 + d.1, cur.2 + d.2) ≤
      some (gc + moveCost d) := by
  by_cases h2 : ((gc + moveCost d : Cost) : WithTop Cost) <
      s.g (cur.1 + d.1, cur.2 + d.2)
  · simp only [relaxDir, if_pos hvalid, if_pos h2, Function.update_same]
    exact le_rfl
  · simp only [relaxDir, if_pos hvalid, if_neg h2]
    exact not_lt.mp h2

theorem relaxFold_bound (N : ℕ) (obs : Finset Cell) (goal cur : Cell) (gc : Cost)
    (hgc : 0 ≤ gc.re ∧ 0 ≤ gc.im) (ds : List Cell) (s : AState) (d : Cell)
    (hd : d ∈ ds) (hvalid : isValidPos N obs (cur.1 + d.1, cur.2 + d.2) = true) :
    (ds.foldl (relaxDir N obs goal cur gc hgc) s).g (cur.1 + d.1, cur.2 + d.2) ≤
      some (gc + moveCost d) := by
  induction ds generalizing s with
  | nil => simp at hd
  | cons a as ih =>
    simp only [List.foldl_cons]
    rcases List.mem_cons.mp hd with rfl | hd'
    · exact le_trans
        (relaxFold_g_le N obs goal cur gc hgc as _ (cur.1 + d.1, cur.2 + d.2))
        (relaxDir_bound N obs goal cur gc hgc s d hvalid)
    · exact ih _ hd'

theorem relaxDir_open_entries (N : ℕ) (obs : Finset Cell) (goal cur : Cell)
    (gc : Cost) (hgc : 0 ≤ gc.re ∧ 0 ≤ gc.im) (s : AState) (d : Cell)
    (x : Cost × Cell) (hx : x ∈ (relaxDir N obs goal cur gc hgc s d).openl) :
    x ∈ s.openl ∨ (relaxDir N obs goal cur gc hgc s d).g x.2 ≠ ⊤ := by
  by_cases h1 : isValidPos N obs (cur.1 + d.1, cur.2 + d.2) = true
  · by_cases h2 : ((gc + moveCost d : Cost) : WithTop Cost) <
        s.g (cur.1 + d.1, cur.2 + d.2)
    · by_cases h3 : (gc + moveCost d + heuristic goal (cur.1 + d.1, cur.2 + d.2),
          (cur.1 + d.1, cur.2 + d.2)) ∈ s.openl
      · simp only [relaxDir, if_pos h1, if_pos h2, if_pos h3] at hx
        exact Or.inl hx
      · simp only [relaxDir, if_pos h1, if_pos h2, if_neg h3] at hx
        rcases List.mem_cons.mp hx with rfl | hx'
        · right
          simp only [relaxDir, if_pos h1, if_pos h2, Function.update_same]
          simp
        · exact Or.inl hx'
    · simp only [relaxDir, if_pos h1, if_neg h2] at hx
      exact Or.inl hx
  · simp only [relaxDir, if_neg h1] at hx
    exact Or.inl hx

theorem relaxFold_open_entries (N : ℕ) (obs : Finset Cell) (goal cur : Cell)
    (gc : Cost) (hgc : 0 ≤ gc.re ∧ 0 ≤ gc.im) (ds : List Cell) (s : AState)
    (x : Cost × Cell) (hx : x ∈ (ds.foldl (relaxDir N obs goal cur gc hgc) s).openl) :
    x ∈ s.openl ∨ (ds.foldl (relaxDir N obs goal cur gc hgc) s).g x.2 ≠ ⊤ := by
  induction ds generalizing s with
  | nil => exact Or.inl hx
  | cons a as ih =>
    simp only [List.foldl_cons] at hx ⊢
    rcases ih _ hx with hx' | hfin
    · rcases relaxDir_open_entries N obs goal cur gc hgc s a x hx' with hx'' | hfin'
      · exact Or.inl hx''
      · refine Or.inr (ne_top_of_le_ne_top hfin' ?_)
        exact relaxFold_g_le N obs goal cur gc hgc as _ x.2
    · exact Or.inr hfin

theorem initState_g (start goal p : Cell) :
    (initState start goal).g p = if p = start then some (0 : Cost) else (⊤ : WithTop Cost) := by
  show Function.update (fun _ => (⊤ : WithTop Cost)) start (some 0) p = _
  by_cases hp : p = start
  · subst hp
    rw [Function.update_same, if_pos rfl]
  · rw [Function.update_noteq hp, if_neg hp]

theorem initState_parent (start goal p : Cell) :
    (initState start goal).parent p = none := rfl

theorem initState_openl (start goal : Cell) :
    (initState start goal).openl = [(heuristic goal start, start)] := rfl

theorem inv_init (N : ℕ) (obs : Finset Cell) (start goal : Cell)
    (hs : isValidPos N obs start = true) (hne : start ≠ goal) :
    AInv N obs start goal (initState start goal) := by
  refine ⟨hs, ?_, rfl, ?_, ?_, ?_, ?_, ?_, ?_, ?_⟩
  · rw [initState_g, if_pos rfl]
  · intro x hx
    rw [initState_openl, List.mem_singleton] at hx
    subst hx
    rw [initState_g, if_pos rfl]
    simp
  · intro p hp
    rw [initState_g] at hp
    by_cases hps : p = start
    · subst hps
      exact hs
    · rw [if_neg hps] at hp
      exact absurd rfl hp
  · intro p q hpq
    rw [initState_parent] at hpq
    exact absurd hpq (by simp)
  · intro p q hpq
    rw [initState_parent] at hpq
    exact absurd hpq (by simp)
  · intro p hp hps
    rw [initState_g, if_neg hps] at hp
    exact absurd rfl hp
  · intro hfin
    rw [initState_g, if_neg (Ne.symm hne)] at hfin
    exact absurd rfl hfin
  · intro p v hv
    rw [initState_g] at hv
    by_cases hps : p = start
    · refine Or.inl ⟨heuristic goal start, ?_⟩
      rw [initState_openl, hps]
      exact List.mem_singleton.mpr rfl
    · rw [if_neg hps] at hv
      exact absurd hv (by simp)

theorem inv_step (N : ℕ) (obs : Finset Cell) (start goal : Cell) (s : AState)
    (hInv : AInv N obs start goal s)
    (e : Cost × Cell) (rest : List (Cost × Cell))
    (hpop : popMin s.openl = some (e, rest)) (hgoal : e.2 ≠ goal)
    (gc : Cost) (hcur : s.g e.2 = some gc)
    (hgc : 0 ≤ gc.re ∧ 0 ≤ gc.im) :
    AInv N obs start goal (relaxAll N obs goal e.2 gc hgc { s with openl := rest }) := by
  obtain ⟨hem, hrest⟩ := popMin_some s.openl e rest hpop
  have hch : Changes N obs e.2 gc { s with openl := rest }
      (relaxAll N obs goal e.2 gc hgc { s with openl := rest }) :=
    relaxAll_changes N obs goal e.2 gc hgc { s with openl := rest }
  set s2 := relaxAll N obs goal e.2 gc hgc { s with openl := rest } with hs2
  have hgle : ∀ p, s2.g p ≤ s.g p := fun p =>
    relaxFold_g_le N obs goal e.2 gc hgc directions { s with openl := rest } p
  have hopsup : ∀ x ∈ rest, x ∈ s2.openl := fun x hx =>
    relaxFold_open_super N obs goal e.2 gc hgc directions { s with openl := rest } x hx
  have hmemrest : ∀ (f : Cost) (q : Cell), q ≠ e.2 → (f, q) ∈ s.openl →
      (f, q) ∈ s2.openl := by
    intro f q hq hf
    apply hopsup
    rw [hrest]
    refine (List.mem_erase_of_ne ?_).mpr hf
    intro hcontra
    exact hq (congrArg Prod.snd hcontra)
  have hnonneg : ∀ d : Cell, (0 : Cost) ≤ gc + moveCost d := by
    intro d
    apply nonneg_of_components
    · rw [Zsqrtd.add_re]
      have := moveCost_re d
      omega
    · rw [Zsqrtd.add_im]
      have := moveCost_im d
      omega
  have hcurunch : s2.g e.2 = s.g e.2 := by
    rcases hch e.2 with ⟨hgq, _⟩ | ⟨_, _, _, _, d2, hd2, hpd2, _⟩
    · exact hgq
    · exact absurd hpd2.symm (neighbor_ne_self e.2 d2 hd2)
  have hstart_unch : s2.g start = s.g start ∧ s2.parent start = s.parent start := by
    rcases hch start with ⟨hgq, hpq⟩ | ⟨_, hlt, _, _, d, hd, hpd, hgd⟩
    · exact ⟨hgq, hpq⟩
    · exfalso
      have hlt' : s2.g start < s.g start := hlt
      rw [hInv.hstart_g, hgd] at hlt'
      have hneg : gc + moveCost d < 0 := WithTop.some_lt_some.mp hlt'
      exact absurd hneg (not_lt.mpr (hnonneg d))
  refine ⟨hInv.start_valid, ?_, ?_, ?_, ?_, ?_, ?_, ?_, ?_, ?_⟩
  · exact hstart_unch.1.trans hInv.hstart_g
  · exact hstart_unch.2.trans hInv.hpar_start
  · intro x hx
    rcases relaxFold_open_entries N obs goal e.2 gc hgc directions
        { s with openl := rest } x hx with hxs | hfin
    · have hx' : x ∈ s.openl := List.mem_of_mem_erase (hrest ▸ hxs)
      exact ne_top_of_le_ne_top (hInv.open_g x hx') (hgle x.2)
    · exact hfin
  · intro p hp
    rcases hch p with ⟨hgq, _⟩ | ⟨hv, _, _, _, _⟩
    · exact hInv.g_valid p (fun h => hp ((hgq : s2.g p = s.g p).trans h))
    · exact hv
  · intro p q hpq
    rcases hch p with ⟨_, hparq⟩ | ⟨_, _, hpar, _, d, hd, hpd, _⟩
    · exact hInv.par_edge p q ((hparq : s2.parent p = s.parent p).symm.trans hpq)
    · have hq : q = e.2 := by
        rw [hpar] at hpq
        injection hpq with h
        exact h.symm
      subst hq
      exact ⟨d, hd, hpd⟩
  · intro p q hpq
    rcases hch p with ⟨hgq, hparq⟩ | ⟨_, _, hpar, _, d, hd, hpd, hgd⟩
    · obtain ⟨hfin, hlt'⟩ :=
        hInv.par_lt p q ((hparq : s2.parent p = s.parent p).symm.trans hpq)
      constructor
      · rw [(hgq : s2.g p = s.g p)]
        exact hfin
      · rw [(hgq : s2.g p = s.g p)]
        exact lt_of_le_of_lt (hgle q) hlt'
    · have hq : q = e.2 := by
        rw [hpar] at hpq
        injection hpq with h
        exact h.symm
      subst hq
      constructor
      · rw [hgd]
        simp
      · rw [hgd, hcurunch, hcur]
        exact WithTop.some_lt_some.mpr (lt_add_of_pos_right gc (moveCost_pos d))
  · intro p hfin hpstart
    rcases hch p with ⟨hgq, hparq⟩ | ⟨_, _, hpar, _, _⟩
    · rw [(hparq : s2.parent p = s.parent p)]
      exact hInv.par_none p (fun h => hfin ((hgq : s2.g p = s.g p).trans h)) hpstart
    · rw [hpar]
      simp
  · intro hfin
    rcases hch goal with ⟨hgq, _⟩ | ⟨_, _, _, hopen, _⟩
    · have hfin' : s.g goal ≠ ⊤ := fun h => hfin ((hgq : s2.g goal = s.g goal).trans h)
      obtain ⟨f, hf⟩ := hInv.goal_open hfin'
      exact ⟨f, hmemrest f goal (fun h => hgoal h.symm) hf⟩
    · exact hopen
  · intro p v hv
    rcases hch p with ⟨hgq, _⟩ | ⟨_, _, _, hopen, _⟩
    · have hv' : s.g p = some v := (hgq : s2.g p = s.g p).symm.trans hv
      by_cases hpe : p = e.2
      · right
        intro d hd hvalid
        have hvgc : v = gc := by
          have h2 : s.g e.2 = some v := by
            rw [← hpe]
            exact hv'
          have h3 := h2.symm.trans hcur
          injection h3
        rw [hpe, hvgc]
        exact relaxFold_bound N obs goal e.2 gc hgc directions
          { s with openl := rest } d hd (by rw [← hpe]; exact hvalid)
      · rcases hInv.frontier p v hv' with ⟨f, hf⟩ | hbound
        · exact Or.inl ⟨f, hmemrest f p hpe hf⟩
        · right
          intro d hd hvalid
          exact le_trans (hgle _) (hbound d hd hvalid)
    · exact Or.inl hopen

theorem gridF_card (N : ℕ) : (gridF N).card = N * N := by
  unfold gridF
  have hinj : Function.Injective (fun p : ℕ × ℕ => ((p.1 : ℤ), (p.2 : ℤ))) := by
    intro a b h
    have h1 : (a.1 : ℤ) = b.1 := congrArg Prod.fst h
    have h2 : (a.2 : ℤ) = b.2 := congrArg Prod.snd h
    exact Prod.ext (by exact_mod_cast h1) (by exact_mod_cast h2)
  rw [Finset.card_image_of_injective _ hinj, Finset.card_product, Finset.card_range]

theorem rebuild_spec (N : ℕ) (obs : Finset Cell) (start goal : Cell) (s : AState)
    (hInv : AInv N obs start goal s) :
    ∀ (fuel : ℕ) (p : Cell), s.g p ≠ ⊤ →
      ((gridF N).filter (fun q => s.g q < s.g p)).card < fuel →
      (rebuild s.parent fuel p ++ [start]).head? = some p ∧
      (rebuild s.parent fuel p ++ [start]).getLast? = some start ∧
      List.Chain' (fun a b => s.parent a = some b) (rebuild s.parent fuel p ++ [start]) ∧
      ∀ x ∈ rebuild s.parent fuel p ++ [start], s.g x ≠ ⊤ := by
  intro fuel
  induction fuel with
  | zero =>
    intro p hp hcard
    exact absurd hcard (Nat.not_lt_zero _)
  | succ n ih =>
    intro p hp hcard
    cases hpp : s.parent p with
    | none =>
      have hps : p = start := by
        by_contra hne
        exact hInv.par_none p hp hne hpp
      have hrw : rebuild s.parent (n + 1) p = [] := by
        simp [rebuild, hpp]
      rw [hrw, List.nil_append]
      refine ⟨by rw [hps]; rfl, rfl, List.chain'_singleton start, ?_⟩
      intro x hx
      rw [List.mem_singleton] at hx
      subst hx
      rw [hInv.hstart_g]
      simp
    | some q =>
      obtain ⟨hpfin, hlt⟩ := hInv.par_lt p q hpp
      have hqfin : s.g q ≠ ⊤ := by
        intro h
        rw [h] at hlt
        exact not_top_lt hlt
      have hqgrid : q ∈ gridF N := valid_mem_gridF N obs q (hInv.g_valid q hqfin)
      have hsub : (gridF N).filter (fun x => s.g x < s.g q) ⊆
          (gridF N).filter (fun x => s.g x < s.g p) := by
        apply Finset.monotone_filter_right
        intro x hx
        exact lt_trans hx hlt
      have hmem : q ∈ (gridF N).filter (fun x => s.g x < s.g p) :=
        Finset.mem_filter.mpr ⟨hqgrid, hlt⟩
      have hnot : q ∉ (gridF N).filter (fun x => s.g x < s.g q) := by
        intro h
        exact lt_irrefl _ (Finset.mem_filter.mp h).2
      have hltcard : ((gridF N).filter (fun x => s.g x < s.g q)).card <
          ((gridF N).filter (fun x => s.g x < s.g p)).card :=
        Finset.card_lt_card ⟨hsub, fun hsup => hnot (hsup hmem)⟩
      obtain ⟨ih1, ih2, ih3, ih4⟩ := ih q hqfin (by omega)
      have hrw : rebuild s.parent (n + 1) p = p :: rebuild s.parent n q := by
        simp [rebuild, hpp]
      rw [hrw, List.cons_append]
      refine ⟨rfl, ?_, ?_, ?_⟩
      · rw [← List.cons_append, List.getLast?_concat]
      · refine List.chain'_cons'.mpr ⟨?_, ih3⟩
        intro y hy
        rw [ih1] at hy
        have hyq : y = q := by
          simpa using hy.symm
        rw [hyq]
        exact hpp
      · intro x hx
        rcases List.mem_cons.mp hx with rfl | hx'
        · exact hp
        · exact ih4 x hx'

theorem moveCost_nonneg (d : Cell) : (0 : Cost) ≤ moveCost d := by
  unfold moveCost
  split_ifs <;> decide

theorem accCost_take_mono (l : List Cell) :
    ∀ i : ℕ, accCost (l.take (i + 1)) ≤ accCost (l.take (i + 2)) := by
  induction l with
  | nil => intro i; exact le_rfl
  | cons p t iht =>
    intro i
    cases t with
    | nil =>
      simp [accCost]
    | cons q t2 =>
      cases i with
      | zero =>
        simp only [List.take, accCost]
        cases t2 with
        | nil =>
          simp [accCost]
          exact moveCost_nonneg _
        | cons r t3 =>
          simp [accCost]
          exact moveCost_nonneg _
      | succ j =>
        simp only [List.take]
        have hstep := iht j
        calc accCost (p :: List.take (j + 1) (q :: t2))
            = moveCost (q.1 - p.1, q.2 - p.2) + accCost (List.take (j + 1) (q :: t2)) := by
              simp [accCost, List.take]
          _ ≤ moveCost (q.1 - p.1, q.2 - p.2) + accCost (List.take (j + 2) (q :: t2)) := by
              exact add_le_add_left hstep _
          _ = accCost (p :: List.take (j + 2) (q :: t2)) := by
              simp [accCost, List.take]

theorem closed_of_empty (N : ℕ) (obs : Finset Cell) (start goal : Cell)
    (s : AState) (hInv : AInv N obs start goal s) (hempty : s.openl = [])
    (hCon : Connected N obs start goal) : False := by
  obtain ⟨l, hhead, hlast, hvalid, hchain⟩ := hCon
  have key : ∀ (t : List Cell), (∀ p ∈ t, isValidPos N obs p = true) →
      List.Chain' adjacentStep t → ∀ a, t.head? = some a → s.g a ≠ ⊤ →
      ∀ x ∈ t, s.g x ≠ ⊤ := by
    intro t
    induction t with
    | nil =>
      intro _ _ a ha
      simp at ha
    | cons b t2 ih =>
      intro hval hch a ha hafin x hx
      have hba : b = a := by
        simp only [List.head?_cons, Option.some_inj] at ha
        exact ha
      subst hba
      rcases List.mem_cons.mp hx with rfl | hxt
      · exact hafin
      · cases t2 with
        | nil => simp at hxt
        | cons c t3 =>
          obtain ⟨hbc, hch2⟩ := List.chain'_cons.mp hch
          obtain ⟨d, hd, hcd⟩ := hbc
          obtain ⟨vb, hvb⟩ := WithTop.ne_top_iff_exists.mp hafin
          have hcvalid : isValidPos N obs c = true := hval c (by simp)
          rcases hInv.frontier b vb hvb.symm with ⟨f, hf⟩ | hbd
          · rw [hempty] at hf
            simp at hf
          · have hble := hbd d hd (by rw [← hcd]; exact hcvalid)
            have hcfin : s.g c ≠ ⊤ := by
              rw [hcd]
              intro htop
              rw [htop] at hble
              exact absurd hble (by simp)
            exact ih (fun p hp => hval p (List.mem_cons_of_mem b hp)) hch2 c rfl
              hcfin x hxt
  have hstartfin : s.g start ≠ ⊤ := by
    rw [hInv.hstart_g]
    simp
  have hgoalmem : goal ∈ l := by
    obtain ⟨hne, hgl⟩ := List.mem_getLast?_eq_getLast (Option.mem_def.mpr hlast)
    rw [hgl]
    exact List.getLast_mem hne
  have hgoalfin : s.g goal ≠ ⊤ := key l hvalid hchain start hhead hstartfin goal hgoalmem
  obtain ⟨f, hf⟩ := hInv.goal_open hgoalfin
  rw [hempty] at hf
  simp at hf

theorem loop_main (N : ℕ) (obs : Finset Cell) (start goal : Cell) (s : AState) :
    AInv N obs start goal s →
    (loop N obs start goal s = none → ¬ Connected N obs start goal) ∧
    (∀ l, loop N obs start goal s = some l → PathOK N obs start goal l) := by
  induction s using loop.induct N obs start goal with
  | case1 s hpop =>
    intro hInv
    constructor
    · intro _ hCon
      exact closed_of_empty N obs start goal s hInv ((popMin_none s.openl).mp hpop) hCon
    · intro l hl
      rw [loop_eq_none N obs start goal s hpop] at hl
      exact absurd hl (by simp)
  | case2 s e rest hpop hg =>
    intro hInv
    have hsome := loop_eq_goal N obs start goal s e rest hpop hg
    constructor
    · intro hnone
      rw [hsome] at hnone
      exact absurd hnone (by simp)
    · intro l hl
      rw [hsome] at hl
      injection hl with hl
      have hem := (popMin_some s.openl e rest hpop).1
      have hgfin : s.g goal ≠ ⊤ := by
        have hfin := hInv.open_g e hem
        rw [hg] at hfin
        exact hfin
      have hcard : ((gridF N).filter (fun q => s.g q < s.g goal)).card < N * N + 1 := by
        have h1 := Finset.card_filter_le (gridF N) (fun q => s.g q < s.g goal)
        rw [gridF_card N] at h1
        omega
      obtain ⟨hh, hlast, hchain, hfin⟩ :=
        rebuild_spec N obs start goal s hInv (N * N + 1) goal hgfin hcard
      subst hl
      refine ⟨⟨?_, ?_, ?_, ?_⟩, ?_⟩
      · rw [List.head?_reverse]
        exact hlast
      · rw [List.getLast?_reverse]
        exact hh
      · intro p hp
        rw [List.mem_reverse] at hp
        exact hInv.g_valid p (hfin p hp)
      · rw [List.chain'_reverse]
        apply List.Chain'.imp ?_ hchain
        intro a b hab
        obtain ⟨d, hd, hpd⟩ := hInv.par_edge a b hab
        exact ⟨d, hd, hpd⟩
      · intro i
        exact accCost_take_mono _ i
  | case3 s e rest hpop hg hcur ih =>
    intro hInv
    have hem := (popMin_some s.openl e rest hpop).1
    exact absurd hcur (hInv.open_g e hem)
  | case4 s e rest hpop hg gc hcur ih =>
    intro hInv
    have hInv2 := inv_step N obs start goal s hInv e rest hpop hg gc hcur
      (s.hg e.2 gc hcur)
    have heq := loop_eq_relax N obs start goal s e rest hpop hg gc hcur
    rw [heq]
    exact ih hInv2

/-- C6.  For every start and goal, `calculate_path` returns a list of
cells beginning at `start` and ending at `goal` whose consecutive cells
are adjacent 8-directional valid (in-bounds, non-obstacle) moves with
non-decreasing accumulated cost along the path, and it returns `None` if
and only if no sequence of valid moves connects `start` and `goal`. -/
theorem calculate_path_spec (N : ℕ) (obs : Finset Cell) (start goal : Cell) :
    (∀ l, calculatePath N obs start goal = some l → PathOK N obs start goal l) ∧
    (calculatePath N obs start goal = none ↔ ¬ Connected N obs start goal) := by
  by_cases hv : isValidPos N obs start = true ∧ isValidPos N obs goal = true
  · by_cases hsg : start = goal
    · subst hsg
      have hres : calculatePath N obs start start = some [start] := by
        unfold calculatePath
        rw [if_pos hv, if_pos rfl]
      have hpath : ValidPath N obs start start [start] := by
        refine ⟨rfl, rfl, ?_, List.chain'_singleton start⟩
        intro p hp
        rw [List.mem_singleton] at hp
        subst hp
        exact hv.1
      constructor
      · intro l hl
        rw [hres] at hl
        injection hl with hl
        subst hl
        refine ⟨hpath, ?_⟩
        intro i
        exact accCost_take_mono [start] i
      · rw [hres]
        constructor
        · intro h
          exact absurd h (by simp)
        · intro hnc
          exact absurd ⟨[start], hpath⟩ hnc
    · have hres : calculatePath N obs start goal =
          loop N obs start goal (initState start goal) := by
        unfold calculatePath
        rw [if_pos hv, if_neg hsg]
      have hInv := inv_init N obs start goal hv.1 hsg
      have hmain := loop_main N obs start goal (initState start goal) hInv
      rw [hres]
      refine ⟨hmain.2, ⟨fun hnone => hmain.1 hnone, fun hnc => ?_⟩⟩
      cases hl : loop N obs start goal (initState start goal) with
      | none => rfl
      | some l =>
        exfalso
        obtain ⟨hvp, _⟩ := hmain.2 l hl
        exact hnc ⟨l, hvp⟩
  · have hres : calculatePath N obs start goal = none := by
      unfold calculatePath
      rw [if_neg hv]
    constructor
    · intro l hl
      rw [hres] at hl
      exact absurd hl (by simp)
    · rw [hres]
      constructor
      · intro _ hCon
        obtain ⟨l, hh, hlast, hval, _⟩ := hCon
        apply hv
        constructor
        · apply hval
          obtain ⟨hne, hgl⟩ := List.mem_getLast?_eq_getLast (Option.mem_def.mpr hlast)
          cases l with
          | nil => simp at hh
          | cons b t =>
            have hb : b = start := by
              simp only [List.head?_cons, Option.some_inj] at hh
              exact hh
            rw [← hb]
            simp
        · apply hval
          obtain ⟨hne, hgl⟩ := List.mem_getLast?_eq_getLast (Option.mem_def.mpr hlast)
          rw [hgl]
          exact List.getLast_mem hne
      · intro _
        rfl

end Farm
